import Mathlib

/-!
# tcp-server.c: a serial accept/read/write/close server

Shallow embedding of `main` of `src/tcp-server.c`.  The program talks to the
operating system only through system calls and the two standard streams, so
its behaviour is modelled as a function from the results the environment
hands back (an oracle, consumed in call order) to the trace of observable
events the program produces and the status it ends in.  A finite oracle yields
the finite prefix of the run up to the first system call whose result is still
outstanding.
-/

namespace TcpServer

/-- A byte, kept as a natural number below 256. -/
abbrev Byte := Nat

/-- Line 10: `#define PORT 8181`. -/
def PORT : Nat := 8181

/-- Line 11: `#define BUF_SIZE 512`. -/
def BUF_SIZE : Nat := 512

/-- Names of the constants the program takes from the system headers; their
numeric values play no part in what the program does. -/
inductive Sym where
  | AF_INET
  | SOCK_STREAM
  | SOL_SOCKET
  | SO_REUSEADDR
  | INADDR_ANY
  deriving DecidableEq, Repr

/-- The two standard streams the program writes to. -/
inductive StdStream where
  | stdout
  | stderr
  deriving DecidableEq, Repr

/-- A system call as issued by the program, with the arguments it passes. -/
inductive Call where
  | socket (domain type : Sym) (protocol : Int)
  | setsockopt (fd : Int) (level optname : Sym) (optval : Int)
  | bind (fd : Int) (family addr : Sym) (port : Nat)
  | listen (fd : Int) (backlog : Int)
  | accept (fd : Int)
  | read (fd : Int) (count : Nat)
  | write (fd : Int) (bytes : List Byte) (count : Nat)
  | close (fd : Int)
  deriving DecidableEq, Repr

/-- What the environment hands back for one system call: the return value,
the bytes it placed in the caller's buffer (`read`), the peer address it
filled in (`accept`, as `inet_ntoa` and `ntohs` render it) and the text of
`strerror(errno)` as it stands after the call. -/
structure Resp where
  ret : Int
  data : List Byte
  peerIp : List Byte
  peerPort : Nat
  err : List Byte
  deriving DecidableEq, Repr

/-- An observable event: a system call together with the result the program
received for it (`none` when the result is outstanding, or, for `close`, not
looked at), or text written to a standard stream. -/
inductive Event where
  | sys (call : Call) (result : Option Resp)
  | out (stream : StdStream) (text : List Byte)
  deriving DecidableEq, Repr

/-- How far a run got: waiting for the result of the last call in the trace,
returned from `main`, performed an out-of-bounds store, or left the `while`
statement through its condition. -/
inductive Status where
  | running
  | exited (code : Int)
  | fault
  | loopExit
  deriving DecidableEq, Repr

/-- A run: the events produced so far, in order, the status reached, and the
contents of `buf` at that point. -/
structure Run where
  trace : List Event
  status : Status
  buf : List Byte
  deriving DecidableEq, Repr

/-- Events `es` happen, then the run `r`. -/
def Run.prepend (es : List Event) (r : Run) : Run :=
  ⟨es ++ r.trace, r.status, r.buf⟩

/-- The bytes of an ASCII string literal of the source. -/
def strBytes (s : String) : List Byte :=
  s.toList.map Char.toNat

/-- Rendering of `%d` for a non-negative value. -/
def decimal (n : Nat) : List Byte :=
  strBytes (toString n)

/-- The bytes of the C string starting at the front of `mem`: everything
before the first zero byte (`%s`, `strlen`). -/
def cstr (mem : List Byte) : List Byte :=
  mem.takeWhile (fun b => b != 0)

/-- The function `strlen`. -/
def strlen (mem : List Byte) : Nat :=
  (cstr mem).length

/-- Line 18: `const char *data = "httpd v1.0\n";`, the literal as it lies in
memory, terminator included. -/
def data : List Byte :=
  strBytes "httpd v1.0\n" ++ [0]

/-- The function `perror(s)`: one line on standard error. -/
def perror (s : String) (err : List Byte) : Event :=
  .out .stderr (strBytes s ++ strBytes ": " ++ err ++ strBytes "\n")

/-- Kernel side of a successful `read(fd, buf, count)`: the delivered bytes
overwrite the front of the buffer. -/
def bufFill (buf delivered : List Byte) : List Byte :=
  delivered ++ buf.drop delivered.length

/-- The store `buf[i] = v` into `char buf[BUF_SIZE]`; `none` when the index is
outside the array. -/
def bufStore (buf : List Byte) (i : Int) (v : Byte) : Option (List Byte) :=
  if 0 ≤ i ∧ i < BUF_SIZE then some (buf.set i.toNat v) else none

/-- The condition of `while (1)` on line 57. -/
def whileCond : Int := 1

/-- Width of `size_t` on the LP64 targets the program builds for; the `ssize_t`
result of `write` is converted to it for the comparison on line 77. -/
def SIZE_BITS : Nat := 64

/-- Line 54: `printf("Listening on 0.0.0.0:%d\n", PORT)`. -/
def listeningLine : Event :=
  .out .stdout (strBytes "Listening on 0.0.0.0:" ++ decimal PORT ++ strBytes "\n")

/-- Line 64: `printf("Client connected from %s:%d\n", ...)` for the peer that
`accept` reported. -/
def connectedLine (a : Resp) : Event :=
  .out .stdout (strBytes "Client connected from " ++ a.peerIp ++ strBytes ":"
    ++ decimal a.peerPort ++ strBytes "\n")

/-- Line 74: `printf("Received: %s\n", buf)`. -/
def receivedLine (buf : List Byte) : Event :=
  .out .stdout (strBytes "Received: " ++ cstr buf ++ strBytes "\n")

/-- Line 77: the call `write(c, data, strlen(data))`. -/
def writeCall (c : Int) : Call :=
  .write c (data.take (strlen data)) (strlen data)

/-- Lines 77-79: the diagnostic printed when the converted result of `write`
differs from `strlen(data)`. -/
def writeLog (w : Resp) : List Event :=
  if w.ret % 2 ^ SIZE_BITS ≠ (strlen data : Int) then [perror "write" w.err] else []

/-- Lines 57-82: the accept loop on listening socket `s`, with the current
contents of `buf`, against the remaining results of the environment. -/
def acceptLoop (s : Int) : List Byte → List Resp → Run
  | buf, [] =>
    if whileCond = 0 then ⟨[], .loopExit, buf⟩ else
    ⟨[.sys (.accept s) none], .running, buf⟩
  | buf, a :: env =>
    if whileCond = 0 then ⟨[], .loopExit, buf⟩ else
    Run.prepend [.sys (.accept s) (some a)] <|
    let c := a.ret
    if c < 0 then
      Run.prepend [perror "accept" a.err] (acceptLoop s buf env)
    else
    Run.prepend [connectedLine a] <|
    match env with
    | [] => ⟨[.sys (.read c (BUF_SIZE - 1)) none], .running, buf⟩
    | r :: env =>
      Run.prepend [.sys (.read c (BUF_SIZE - 1)) (some r)] <|
      let n := r.ret
      if n < 0 then
        Run.prepend [perror "read" r.err, .sys (.close c) none] (acceptLoop s buf env)
      else
      let buf := bufFill buf r.data
      match bufStore buf n 0 with
      | none => ⟨[], .fault, buf⟩
      | some buf =>
        Run.prepend [receivedLine buf] <|
        match env with
        | [] => ⟨[.sys (writeCall c) none], .running, buf⟩
        | w :: env =>
          Run.prepend [.sys (writeCall c) (some w)] <|
          Run.prepend (writeLog w) <|
          Run.prepend [.sys (.close c) none] (acceptLoop s buf env)

/-- Lines 13-86: `main`, started with arbitrary bytes `buf` in its
uninitialised buffer, against the results `env` of the environment. -/
def main (buf : List Byte) : List Resp → Run
  | [] => ⟨[.sys (.socket .AF_INET .SOCK_STREAM 0) none], .running, buf⟩
  | r :: env =>
    Run.prepend [.sys (.socket .AF_INET .SOCK_STREAM 0) (some r)] <|
    let s := r.ret
    if s < 0 then ⟨[perror "socket" r.err], .exited 1, buf⟩ else
    match env with
    | [] => ⟨[.sys (.setsockopt s .SOL_SOCKET .SO_REUSEADDR 1) none], .running, buf⟩
    | r :: env =>
      Run.prepend [.sys (.setsockopt s .SOL_SOCKET .SO_REUSEADDR 1) (some r)] <|
      if r.ret < 0 then
        ⟨[perror "setsockopt" r.err, .sys (.close s) none], .exited 1, buf⟩
      else
      match env with
      | [] => ⟨[.sys (.bind s .AF_INET .INADDR_ANY PORT) none], .running, buf⟩
      | r :: env =>
        Run.prepend [.sys (.bind s .AF_INET .INADDR_ANY PORT) (some r)] <|
        if r.ret < 0 then
          ⟨[perror "bind" r.err, .sys (.close s) none], .exited 1, buf⟩
        else
        match env with
        | [] => ⟨[.sys (.listen s 5) none], .running, buf⟩
        | r :: env =>
          Run.prepend [.sys (.listen s 5) (some r)] <|
          if r.ret < 0 then
            ⟨[perror "listen" r.err, .sys (.close s) none], .exited 1, buf⟩
          else
          Run.prepend [listeningLine] <|
          let loop := acceptLoop s buf env
          if loop.status = .loopExit then
            ⟨loop.trace ++ [.sys (.close s) none], .exited 0, loop.buf⟩
          else loop

/-- A result carrying only a return value. -/
def ret (v : Int) : Resp := ⟨v, [], [], 0, []⟩

/-- An uninitialised buffer that happens to hold zero bytes only. -/
def zeros : List Byte := List.replicate BUF_SIZE 0

/-! ## Reading traces -/

/-- Is the event a call of `accept`? -/
def Event.isAccept : Event → Bool
  | .sys (.accept _) _ => true
  | _ => false

/-- The events of a trace before its first call of `accept`. -/
def untilAccept (t : List Event) : List Event :=
  t.takeWhile (fun e => !e.isAccept)

/-- The system calls of a trace, in order. -/
def callsOf (t : List Event) : List Call :=
  t.filterMap (fun e => match e with
    | .sys c _ => some c
    | .out _ _ => none)

/-- Is the call a `write`? -/
def Call.isWrite : Call → Bool
  | .write _ _ _ => true
  | _ => false

/-- Is the call a `close`? -/
def Call.isClose : Call → Bool
  | .close _ => true
  | _ => false

/-- The `write` calls of a trace, in order. -/
def writesOf (t : List Event) : List Call :=
  (callsOf t).filter Call.isWrite

/-- The `close` calls of a trace, in order. -/
def closesOf (t : List Event) : List Call :=
  (callsOf t).filter Call.isClose

/-- The value of `buf` after a successful `read` delivered `r` and the
terminator was stored (lines 67 and 73). -/
def terminated (buf : List Byte) (r : Resp) : List Byte :=
  (bufFill buf r.data).set r.ret.toNat 0

/-- The events that follow a call of `accept` on `s` that returned `a`: the six
ways one pass of the loop body can go. -/
inductive Segment (s : Int) (a : Resp) : List Event → Prop where
  | acceptFail (nxt : Option Resp) (post : List Event) (ha : a.ret < 0) :
      Segment s a (perror "accept" a.err :: .sys (.accept s) nxt :: post)
  | readPending (ha : 0 ≤ a.ret) :
      Segment s a [connectedLine a, .sys (.read a.ret 511) none]
  | readFail (r : Resp) (nxt : Option Resp) (post : List Event) (ha : 0 ≤ a.ret)
      (hr : r.ret < 0) :
      Segment s a (connectedLine a :: .sys (.read a.ret 511) (some r) :: perror "read" r.err
        :: .sys (.close a.ret) none :: .sys (.accept s) nxt :: post)
  | fault (r : Resp) (ha : 0 ≤ a.ret) (hr : (BUF_SIZE : Int) ≤ r.ret) :
      Segment s a [connectedLine a, .sys (.read a.ret 511) (some r)]
  | writePending (r : Resp) (buf : List Byte) (ha : 0 ≤ a.ret) (hr : 0 ≤ r.ret)
      (hb : r.ret < (BUF_SIZE : Int)) :
      Segment s a [connectedLine a, .sys (.read a.ret 511) (some r),
        receivedLine (terminated buf r), .sys (writeCall a.ret) none]
  | served (r w : Resp) (buf : List Byte) (nxt : Option Resp) (post : List Event)
      (ha : 0 ≤ a.ret) (hr : 0 ≤ r.ret) (hb : r.ret < (BUF_SIZE : Int)) :
      Segment s a ([connectedLine a, .sys (.read a.ret 511) (some r),
        receivedLine (terminated buf r), .sys (writeCall a.ret) (some w)] ++ writeLog w
        ++ .sys (.close a.ret) none :: .sys (.accept s) nxt :: post)

/-- Lines 21-54 when every startup step succeeds: the four calls with their
results and the confirmation. -/
def startup (r1 r2 r3 r4 : Resp) : List Event :=
  [.sys (.socket .AF_INET .SOCK_STREAM 0) (some r1),
   .sys (.setsockopt r1.ret .SOL_SOCKET .SO_REUSEADDR 1) (some r2),
   .sys (.bind r1.ret .AF_INET .INADDR_ANY 8181) (some r3),
   .sys (.listen r1.ret 5) (some r4),
   .out .stdout (strBytes "Listening on 0.0.0.0:8181\n")]

/-- Is the event one that only the startup phase produces or may produce: a
call of `socket`, `setsockopt`, `bind`, `listen` or `close`, or a line on
standard error? -/
def Event.isStartup : Event → Bool
  | .sys (.socket _ _ _) _ => true
  | .sys (.setsockopt _ _ _ _) _ => true
  | .sys (.bind _ _ _ _) _ => true
  | .sys (.listen _ _) _ => true
  | .sys (.close _) _ => true
  | .out .stderr _ => true
  | _ => false

/-- The events of `fails` consecutive passes in each of which `accept` on `s`
returned a negative value (lines 59-63). -/
def acceptFailures (s : Int) : List Resp → List Event
  | [] => []
  | f :: fails => .sys (.accept s) (some f) :: perror "accept" f.err :: acceptFailures s fails

/-- The texts written to standard output, in order. -/
def stdoutOf (t : List Event) : List (List Byte) :=
  t.filterMap (fun e => match e with
    | .out .stdout text => some text
    | _ => none)

/-- The texts written to standard error, in order. -/
def stderrOf (t : List Event) : List (List Byte) :=
  t.filterMap (fun e => match e with
    | .out .stderr text => some text
    | _ => none)

/-- A `read` result of three bytes whose second byte is zero. -/
def nulPayload : Resp := ⟨3, [97, 0, 98], [], 0, []⟩

/-- An environment in which startup succeeds, one client is accepted on
descriptor 4 and sends `nulPayload`. -/
def nulEnv : List Resp :=
  [ret 3, ret 0, ret 0, ret 0, ⟨4, [], strBytes "10.0.0.7", 40000, []⟩, nulPayload]

/-- An environment in which startup succeeds, one client is accepted on
descriptor 4, sends `ping` and is written the full reply. -/
def pingEnv : List Resp :=
  [ret 3, ret 0, ret 0, ret 0, ⟨4, [], strBytes "10.0.0.7", 40000, []⟩,
   ⟨4, strBytes "ping", [], 0, []⟩, ret 11]

/-- The same environment as `pingEnv`, except that the client sends `quit`. -/
def quitEnv : List Resp :=
  [ret 3, ret 0, ret 0, ret 0, ⟨4, [], strBytes "10.0.0.7", 40000, []⟩,
   ⟨4, strBytes "quit", [], 0, []⟩, ret 11]

/-- The result of `accept` in `pingEnv`. -/
def pingAccept : Resp := ⟨4, [], strBytes "10.0.0.7", 40000, []⟩

/-- The result of `read` in `pingEnv`. -/
def pingRead : Resp := ⟨4, strBytes "ping", [], 0, []⟩

/-- What follows the call of `accept` in the run against `pingEnv`. -/
def pingPost : List Event :=
  [.out .stdout (strBytes "Client connected from 10.0.0.7:40000\n"),
   .sys (.read 4 511) (some pingRead),
   .out .stdout (strBytes "Received: ping\n"),
   .sys (.write 4 (strBytes "httpd v1.0\n") 11) (some (ret 11)),
   .sys (.close 4) none,
   .sys (.accept 3) none]

/-- A failing result with error text `Connection reset by peer`. -/
def resetResp : Resp := ⟨-1, [], [], 0, strBytes "Connection reset by peer"⟩

/-- An environment in which startup succeeds, one client is accepted on
descriptor 4 and its `read` fails. -/
def resetEnv : List Resp := [ret 3, ret 0, ret 0, ret 0, pingAccept, resetResp]

/-- What follows the call of `accept` in the run against `resetEnv`. -/
def resetPost : List Event :=
  [.out .stdout (strBytes "Client connected from 10.0.0.7:40000\n"),
   .sys (.read 4 511) (some resetResp),
   .out .stderr (strBytes "read: Connection reset by peer\n"),
   .sys (.close 4) none,
   .sys (.accept 3) none]

/-- A failing `write` with error text `Broken pipe`. -/
def pipeWrite : Resp := ⟨-1, [], [], 0, strBytes "Broken pipe"⟩

/-- An environment in which startup succeeds, one client is accepted on
descriptor 4, sends `ping`, and the `write` of the reply fails. -/
def pipeEnv : List Resp := [ret 3, ret 0, ret 0, ret 0, pingAccept, pingRead, pipeWrite]

/-- What follows the call of `accept` in the run against `pipeEnv`. -/
def pipePost : List Event :=
  [.out .stdout (strBytes "Client connected from 10.0.0.7:40000\n"),
   .sys (.read 4 511) (some pingRead),
   .out .stdout (strBytes "Received: ping\n"),
   .sys (.write 4 (strBytes "httpd v1.0\n") 11) (some pipeWrite),
   .out .stderr (strBytes "write: Broken pipe\n"),
   .sys (.close 4) none,
   .sys (.accept 3) none]

/-- What follows the call of `accept` in the run against `nulEnv`. -/
def nulPost : List Event :=
  [.out .stdout (strBytes "Client connected from 10.0.0.7:40000\n"),
   .sys (.read 4 511) (some nulPayload),
   .out .stdout (strBytes "Received: a\n"),
   .sys (.write 4 (strBytes "httpd v1.0\n") 11) none]

/-- A failing `socket` with error text `Permission denied`. -/
def eacces : Resp := ⟨-1, [], [], 0, strBytes "Permission denied"⟩

/-- A failing `accept` with error text `Too many open files`. -/
def emfile : Resp := ⟨-1, [], [], 0, strBytes "Too many open files"⟩

/-- An environment in which startup succeeds and `accept` then fails twice. -/
def emfileEnv : List Resp := [ret 3, ret 0, ret 0, ret 0, emfile, emfile]

/-- What follows the first call of `accept` in the run against `emfileEnv`. -/
def emfilePost : List Event :=
  [.out .stderr (strBytes "accept: Too many open files\n"),
   .sys (.accept 3) (some emfile),
   .out .stderr (strBytes "accept: Too many open files\n"),
   .sys (.accept 3) none]

/-- The name of the operation a call performs, as the program passes it to
`perror`. -/
def Call.name : Call → String
  | .socket _ _ _ => "socket"
  | .setsockopt _ _ _ _ => "setsockopt"
  | .bind _ _ _ _ => "bind"
  | .listen _ _ => "listen"
  | .accept _ => "accept"
  | .read _ _ => "read"
  | .write _ _ _ => "write"
  | .close _ => "close"

/-- Did the step fail, given the value the call returned?  A `write` fails when
it returns anything but the requested count, every other call when it returns
a negative value. -/
def Call.failedWith (call : Call) (v : Int) : Bool :=
  match call with
  | .write _ _ count => decide (v ≠ (count : Int))
  | _ => decide (v < 0)

/-- Effect of one event on the list of open client connections: a successful
`accept` opens the descriptor it returned, `close` closes its argument. -/
def openStep (o : List Int) : Event → List Int
  | .sys (.accept _) (some a) => if 0 ≤ a.ret then a.ret :: o else o
  | .sys (.close c) _ => o.erase c
  | _ => o

/-- The client connections open after the events of `t`. -/
def openConns (t : List Event) : List Int :=
  t.foldl openStep []

/-- The run against `pingEnv` cut off while the `write` is outstanding. -/
def pingPending : List Resp := [ret 3, ret 0, ret 0, ret 0, pingAccept, pingRead]

/-! ## Unfolding the loop, one pass at a time -/

@[simp]
theorem Run.prepend_trace (es : List Event) (r : Run) :
    (Run.prepend es r).trace = es ++ r.trace := rfl

@[simp]
theorem Run.prepend_status (es : List Event) (r : Run) :
    (Run.prepend es r).status = r.status := rfl

@[simp]
theorem Run.prepend_buf (es : List Event) (r : Run) :
    (Run.prepend es r).buf = r.buf := rfl

theorem acceptLoop_nil (s : Int) (buf : List Byte) :
    acceptLoop s buf [] = ⟨[.sys (.accept s) none], .running, buf⟩ := by
  simp [acceptLoop, whileCond]

theorem acceptLoop_accept_fail (s : Int) (buf : List Byte) (a : Resp) (env : List Resp)
    (ha : a.ret < 0) :
    acceptLoop s buf (a :: env)
      = Run.prepend [.sys (.accept s) (some a), perror "accept" a.err] (acceptLoop s buf env) := by
  simp [acceptLoop, whileCond, ha, Run.prepend]

theorem acceptLoop_read_pending (s : Int) (buf : List Byte) (a : Resp) (ha : 0 ≤ a.ret) :
    acceptLoop s buf [a]
      = ⟨[.sys (.accept s) (some a), connectedLine a, .sys (.read a.ret 511) none],
          .running, buf⟩ := by
  simp [acceptLoop, whileCond, not_lt.mpr ha, Run.prepend, BUF_SIZE]

theorem acceptLoop_read_fail (s : Int) (buf : List Byte) (a r : Resp) (env : List Resp)
    (ha : 0 ≤ a.ret) (hr : r.ret < 0) :
    acceptLoop s buf (a :: r :: env)
      = Run.prepend [.sys (.accept s) (some a), connectedLine a,
          .sys (.read a.ret 511) (some r), perror "read" r.err, .sys (.close a.ret) none]
          (acceptLoop s buf env) := by
  simp [acceptLoop, whileCond, not_lt.mpr ha, hr, Run.prepend, BUF_SIZE]

theorem acceptLoop_fault (s : Int) (buf : List Byte) (a r : Resp) (env : List Resp)
    (ha : 0 ≤ a.ret) (hr : (BUF_SIZE : Int) ≤ r.ret) :
    acceptLoop s buf (a :: r :: env)
      = ⟨[.sys (.accept s) (some a), connectedLine a, .sys (.read a.ret 511) (some r)],
          .fault, bufFill buf r.data⟩ := by
  have h0 : ¬ r.ret < 0 := by simp [BUF_SIZE] at hr; omega
  have h1 : ¬ r.ret < (BUF_SIZE : Int) := not_lt.mpr hr
  simp [acceptLoop, whileCond, not_lt.mpr ha, h0, h1, bufStore, Run.prepend]
  simp [BUF_SIZE]

theorem acceptLoop_write_pending (s : Int) (buf : List Byte) (a r : Resp)
    (ha : 0 ≤ a.ret) (hr : 0 ≤ r.ret) (hr' : r.ret < (BUF_SIZE : Int)) :
    acceptLoop s buf [a, r]
      = ⟨[.sys (.accept s) (some a), connectedLine a, .sys (.read a.ret 511) (some r),
          receivedLine (terminated buf r), .sys (writeCall a.ret) none],
          .running, terminated buf r⟩ := by
  simp [acceptLoop, whileCond, not_lt.mpr ha, not_lt.mpr hr, hr, hr', bufStore, Run.prepend,
    terminated]
  simp [BUF_SIZE]

theorem acceptLoop_served (s : Int) (buf : List Byte) (a r w : Resp) (env : List Resp)
    (ha : 0 ≤ a.ret) (hr : 0 ≤ r.ret) (hr' : r.ret < (BUF_SIZE : Int)) :
    acceptLoop s buf (a :: r :: w :: env)
      = Run.prepend ([.sys (.accept s) (some a), connectedLine a,
          .sys (.read a.ret 511) (some r), receivedLine (terminated buf r),
          .sys (writeCall a.ret) (some w)] ++ writeLog w ++ [.sys (.close a.ret) none])
          (acceptLoop s (terminated buf r) env) := by
  simp [acceptLoop, whileCond, not_lt.mpr ha, not_lt.mpr hr, hr, hr', bufStore, Run.prepend,
    terminated]
  simp [BUF_SIZE]

/-- Induction along the passes of the loop. -/
theorem acceptLoop_induction {motive : List Byte → List Resp → Prop}
    (nil : ∀ buf, motive buf [])
    (acceptFail : ∀ buf a env, a.ret < 0 → motive buf env → motive buf (a :: env))
    (readPending : ∀ buf a, 0 ≤ a.ret → motive buf [a])
    (readFail : ∀ buf a r env, 0 ≤ a.ret → r.ret < 0 → motive buf env →
      motive buf (a :: r :: env))
    (fault : ∀ buf a r env, 0 ≤ a.ret → (BUF_SIZE : Int) ≤ r.ret → motive buf (a :: r :: env))
    (writePending : ∀ buf a r, 0 ≤ a.ret → 0 ≤ r.ret → r.ret < (BUF_SIZE : Int) →
      motive buf [a, r])
    (served : ∀ buf a r w env, 0 ≤ a.ret → 0 ≤ r.ret → r.ret < (BUF_SIZE : Int) →
      motive (terminated buf r) env → motive buf (a :: r :: w :: env))
    (buf : List Byte) (env : List Resp) : motive buf env := by
  suffices h : ∀ n (env : List Resp) buf, env.length ≤ n → motive buf env from
    h env.length env buf le_rfl
  intro n
  induction n with
  | zero =>
    intro env buf h
    have : env = [] := List.length_eq_zero.mp (Nat.le_zero.mp h)
    subst this
    exact nil buf
  | succ n ih =>
    intro env buf h
    match env, h with
    | [], _ => exact nil buf
    | a :: env, h =>
      simp only [List.length_cons, Nat.add_le_add_iff_right] at h
      by_cases ha : a.ret < 0
      · exact acceptFail buf a env ha (ih env buf h)
      · have ha := not_lt.mp ha
        match env, h with
        | [], _ => exact readPending buf a ha
        | r :: env, h =>
          simp only [List.length_cons] at h
          by_cases hr : r.ret < 0
          · exact readFail buf a r env ha hr (ih env buf (by omega))
          · have hr := not_lt.mp hr
            by_cases hb : r.ret < (BUF_SIZE : Int)
            · match env, h with
              | [], _ => exact writePending buf a r ha hr hb
              | w :: env, h =>
                simp only [List.length_cons] at h
                exact served buf a r w env ha hr hb (ih env _ (by omega))
            · exact fault buf a r env ha (not_lt.mp hb)

@[simp]
theorem perror_ne_sys (n : String) (e : List Byte) (c : Call) (r : Option Resp) :
    (perror n e = Event.sys c r) = False := by simp [perror]

@[simp]
theorem sys_ne_perror (n : String) (e : List Byte) (c : Call) (r : Option Resp) :
    (Event.sys c r = perror n e) = False := by simp [perror]

@[simp]
theorem connectedLine_ne_sys (a : Resp) (c : Call) (r : Option Resp) :
    (connectedLine a = Event.sys c r) = False := by simp [connectedLine]

@[simp]
theorem sys_ne_connectedLine (a : Resp) (c : Call) (r : Option Resp) :
    (Event.sys c r = connectedLine a) = False := by simp [connectedLine]

@[simp]
theorem receivedLine_ne_sys (b : List Byte) (c : Call) (r : Option Resp) :
    (receivedLine b = Event.sys c r) = False := by simp [receivedLine]

@[simp]
theorem sys_ne_receivedLine (b : List Byte) (c : Call) (r : Option Resp) :
    (Event.sys c r = receivedLine b) = False := by simp [receivedLine]

@[simp]
theorem listeningLine_ne_sys (c : Call) (r : Option Resp) :
    (listeningLine = Event.sys c r) = False := by simp [listeningLine]

@[simp]
theorem sys_ne_listeningLine (c : Call) (r : Option Resp) :
    (Event.sys c r = listeningLine) = False := by simp [listeningLine]

@[simp]
theorem writeCall_ne_accept (c s : Int) : (writeCall c = Call.accept s) = False := by
  simp [writeCall]

@[simp]
theorem accept_ne_writeCall (c s : Int) : (Call.accept s = writeCall c) = False := by
  simp [writeCall]

/-- Every trace of the loop starts with a call of `accept` on the listening
socket. -/
theorem acceptLoop_head (s : Int) (buf : List Byte) (env : List Resp) :
    ∃ nxt t, (acceptLoop s buf env).trace = .sys (.accept s) nxt :: t := by
  induction buf, env using acceptLoop_induction with
  | nil buf => exact ⟨none, [], by rw [acceptLoop_nil]⟩
  | acceptFail buf a env ha _ => exact ⟨some a, _, by rw [acceptLoop_accept_fail _ _ _ _ ha]; rfl⟩
  | readPending buf a ha => exact ⟨some a, _, by rw [acceptLoop_read_pending _ _ _ ha]⟩
  | readFail buf a r env ha hr _ =>
    exact ⟨some a, _, by rw [acceptLoop_read_fail _ _ _ _ _ ha hr]; rfl⟩
  | fault buf a r env ha hr => exact ⟨some a, _, by rw [acceptLoop_fault _ _ _ _ _ ha hr]⟩
  | writePending buf a r ha hr hb =>
    exact ⟨some a, _, by rw [acceptLoop_write_pending _ _ _ _ ha hr hb]⟩
  | served buf a r w env ha hr hb _ =>
    exact ⟨some a, _, by rw [acceptLoop_served _ _ _ _ _ _ ha hr hb]; rfl⟩

theorem writeLog_cases (w : Resp) :
    writeLog w = [] ∨ writeLog w = [perror "write" w.err] := by
  unfold writeLog
  split <;> simp

/-- Whatever follows a completed call of `accept` in a trace of the loop is one
of the six segments. -/
theorem acceptLoop_segment (s : Int) (buf : List Byte) (env : List Resp) :
    ∀ s' a post, (Event.sys (.accept s') (some a) :: post) <:+ (acceptLoop s buf env).trace →
      s' = s ∧ Segment s a post := by
  induction buf, env using acceptLoop_induction with
  | nil buf =>
    intro s' a post h
    rw [acceptLoop_nil] at h
    simp [List.suffix_cons_iff] at h
  | acceptFail buf a0 env ha ih =>
    intro s' a post h
    rw [acceptLoop_accept_fail _ _ _ _ ha] at h
    obtain ⟨nxt, t, ht⟩ := acceptLoop_head s buf env
    simp [List.suffix_cons_iff] at h
    rcases h with ⟨⟨rfl, rfl⟩, rfl⟩ | h
    · rw [ht]
      exact ⟨rfl, .acceptFail nxt t ha⟩
    · exact ih _ _ _ h
  | readPending buf a0 ha =>
    intro s' a post h
    rw [acceptLoop_read_pending _ _ _ ha] at h
    simp [List.suffix_cons_iff] at h
    obtain ⟨⟨rfl, rfl⟩, rfl⟩ := h
    exact ⟨rfl, .readPending ha⟩
  | readFail buf a0 r env ha hr ih =>
    intro s' a post h
    rw [acceptLoop_read_fail _ _ _ _ _ ha hr] at h
    obtain ⟨nxt, t, ht⟩ := acceptLoop_head s buf env
    simp [List.suffix_cons_iff] at h
    rcases h with ⟨⟨rfl, rfl⟩, rfl⟩ | h
    · rw [ht]
      exact ⟨rfl, .readFail r nxt t ha hr⟩
    · exact ih _ _ _ h
  | fault buf a0 r env ha hr =>
    intro s' a post h
    rw [acceptLoop_fault _ _ _ _ _ ha hr] at h
    simp [List.suffix_cons_iff] at h
    obtain ⟨⟨rfl, rfl⟩, rfl⟩ := h
    exact ⟨rfl, .fault r ha hr⟩
  | writePending buf a0 r ha hr hb =>
    intro s' a post h
    rw [acceptLoop_write_pending _ _ _ _ ha hr hb] at h
    simp [List.suffix_cons_iff] at h
    obtain ⟨⟨rfl, rfl⟩, rfl⟩ := h
    exact ⟨rfl, .writePending r buf ha hr hb⟩
  | served buf a0 r w env ha hr hb ih =>
    intro s' a post h
    rw [acceptLoop_served _ _ _ _ _ _ ha hr hb] at h
    obtain ⟨nxt, t, ht⟩ := acceptLoop_head s (terminated buf r) env
    have key := Segment.served (s := s) (a := a0) r w buf nxt t ha hr hb
    rcases writeLog_cases w with hw | hw <;> rw [hw] at h key <;>
      simp [List.suffix_cons_iff] at h
    · rcases h with ⟨⟨rfl, rfl⟩, rfl⟩ | h
      · rw [ht]
        exact ⟨rfl, by simpa using key⟩
      · exact ih _ _ _ h
    · rcases h with ⟨⟨rfl, rfl⟩, rfl⟩ | h
      · rw [ht]
        exact ⟨rfl, by simpa using key⟩
      · exact ih _ _ _ h

/-- The loop never returns and never leaves through its condition. -/
theorem acceptLoop_status (s : Int) (buf : List Byte) (env : List Resp) :
    (acceptLoop s buf env).status = .running ∨ (acceptLoop s buf env).status = .fault := by
  induction buf, env using acceptLoop_induction with
  | nil buf => simp [acceptLoop_nil]
  | acceptFail buf a env ha ih => simpa [acceptLoop_accept_fail _ _ _ _ ha] using ih
  | readPending buf a ha => simp [acceptLoop_read_pending _ _ _ ha]
  | readFail buf a r env ha hr ih => simpa [acceptLoop_read_fail _ _ _ _ _ ha hr] using ih
  | fault buf a r env ha hr => simp [acceptLoop_fault _ _ _ _ _ ha hr]
  | writePending buf a r ha hr hb => simp [acceptLoop_write_pending _ _ _ _ ha hr hb]
  | served buf a r w env ha hr hb ih =>
    simpa [acceptLoop_served _ _ _ _ _ _ ha hr hb] using ih

theorem acceptLoop_not_loopExit (s : Int) (buf : List Byte) (env : List Resp) :
    (acceptLoop s buf env).status ≠ .loopExit := by
  rcases acceptLoop_status s buf env with h | h <;> simp [h]

theorem listeningLine_eq :
    listeningLine = .out .stdout (strBytes "Listening on 0.0.0.0:8181\n") := by decide

/-- When the four startup steps succeed, `main` is the startup events followed
by the loop. -/
theorem main_started (buf : List Byte) (r1 r2 r3 r4 : Resp) (rest : List Resp)
    (h1 : 0 ≤ r1.ret) (h2 : 0 ≤ r2.ret) (h3 : 0 ≤ r3.ret) (h4 : 0 ≤ r4.ret) :
    main buf (r1 :: r2 :: r3 :: r4 :: rest)
      = Run.prepend (startup r1 r2 r3 r4) (acceptLoop r1.ret buf rest) := by
  simp [main, not_lt.mpr h1, not_lt.mpr h2, not_lt.mpr h3, not_lt.mpr h4,
    acceptLoop_not_loopExit, Run.prepend, startup, listeningLine_eq, PORT]

/-- Either the four startup steps succeed and the loop runs, or the run
consists of startup events only. -/
theorem main_cases (buf : List Byte) (env : List Resp) :
    (∃ r1 r2 r3 r4 rest, env = r1 :: r2 :: r3 :: r4 :: rest ∧ 0 ≤ r1.ret ∧ 0 ≤ r2.ret ∧
        0 ≤ r3.ret ∧ 0 ≤ r4.ret ∧
        main buf env = Run.prepend (startup r1 r2 r3 r4) (acceptLoop r1.ret buf rest)) ∨
    ((∀ e ∈ (main buf env).trace, e.isStartup = true) ∧
      ((main buf env).status = .running ∨
        ((main buf env).status = .exited 1 ∧ ∃ r ∈ env.take 4, r.ret < 0)) ∧
      (main buf env).buf = buf) := by
  match env with
  | [] => right; simp [main, Event.isStartup]
  | r1 :: env =>
    by_cases h1 : r1.ret < 0
    · right; simp [main, h1, Event.isStartup, perror]
    match env with
    | [] => right; simp [main, h1, Event.isStartup, perror]
    | r2 :: env =>
      by_cases h2 : r2.ret < 0
      · right; simp [main, h1, h2, Event.isStartup, perror]
      match env with
      | [] => right; simp [main, h1, h2, Event.isStartup, perror]
      | r3 :: env =>
        by_cases h3 : r3.ret < 0
        · right; simp [main, h1, h2, h3, Event.isStartup, perror]
        match env with
        | [] => right; simp [main, h1, h2, h3, Event.isStartup, perror]
        | r4 :: env =>
          by_cases h4 : r4.ret < 0
          · right; simp [main, h1, h2, h3, h4, Event.isStartup, perror]
          · left
            exact ⟨r1, r2, r3, r4, env, rfl, not_lt.mp h1, not_lt.mp h2, not_lt.mp h3,
              not_lt.mp h4, main_started buf r1 r2 r3 r4 env (not_lt.mp h1) (not_lt.mp h2)
                (not_lt.mp h3) (not_lt.mp h4)⟩

/-- In any run of `main`, whatever follows a completed call of `accept` is one
of the six segments, and the call is on the descriptor `socket` returned. -/
theorem main_segment (buf : List Byte) (env : List Resp) (s : Int) (a : Resp)
    (post : List Event)
    (h : (Event.sys (.accept s) (some a) :: post) <:+ (main buf env).trace) :
    (∃ r0 tl, env = r0 :: tl ∧ s = r0.ret) ∧ Segment s a post ∧
      ((main buf env).status = .running ∨ (main buf env).status = .fault) := by
  rcases main_cases buf env with ⟨r1, r2, r3, r4, rest, rfl, h1, h2, h3, h4, hm⟩ | ⟨hs, _, _⟩
  · rw [hm] at h ⊢
    simp [startup, List.suffix_cons_iff] at h
    obtain ⟨rfl, hseg⟩ := acceptLoop_segment _ _ _ _ _ _ h
    exact ⟨⟨r1, _, rfl, rfl⟩, hseg, by simpa using acceptLoop_status _ _ _⟩
  · have := hs _ (h.subset (List.mem_cons_self _ _))
    simp [Event.isStartup] at this

/-- A segment that contains a completed `read`: the call is on the accepted
descriptor for 511 bytes, and the segment is one of the four that get that far. -/
theorem Segment.of_read {s : Int} {a : Resp} {post : List Event} (hseg : Segment s a post)
    {c : Int} {k : Nat} {r : Resp}
    (hread : Event.sys (.read c k) (some r) ∈ untilAccept post) :
    c = a.ret ∧ k = 511 ∧ 0 ≤ a.ret ∧
    ((r.ret < 0 ∧ ∃ nxt post', post = connectedLine a :: .sys (.read a.ret 511) (some r)
        :: perror "read" r.err :: .sys (.close a.ret) none :: .sys (.accept s) nxt :: post') ∨
     ((BUF_SIZE : Int) ≤ r.ret ∧
        post = [connectedLine a, .sys (.read a.ret 511) (some r)]) ∨
     (0 ≤ r.ret ∧ r.ret < (BUF_SIZE : Int) ∧ ∃ buf,
        post = [connectedLine a, .sys (.read a.ret 511) (some r),
          receivedLine (terminated buf r), .sys (writeCall a.ret) none]) ∨
     (0 ≤ r.ret ∧ r.ret < (BUF_SIZE : Int) ∧ ∃ buf w nxt post',
        post = [connectedLine a, .sys (.read a.ret 511) (some r),
          receivedLine (terminated buf r), .sys (writeCall a.ret) (some w)] ++ writeLog w
          ++ .sys (.close a.ret) none :: .sys (.accept s) nxt :: post')) := by
  cases hseg with
  | acceptFail nxt post ha =>
    simp [untilAccept, Event.isAccept, perror] at hread
  | readPending ha =>
    simp [untilAccept, Event.isAccept, perror, connectedLine] at hread
  | readFail r' nxt post ha hr =>
    simp [untilAccept, Event.isAccept, perror, connectedLine] at hread
    obtain ⟨⟨rfl, rfl⟩, rfl⟩ := hread
    exact ⟨rfl, rfl, ha, Or.inl ⟨hr, nxt, post, rfl⟩⟩
  | fault r' ha hr =>
    simp [untilAccept, Event.isAccept, perror, connectedLine] at hread
    obtain ⟨⟨rfl, rfl⟩, rfl⟩ := hread
    exact ⟨rfl, rfl, ha, Or.inr (Or.inl ⟨hr, rfl⟩)⟩
  | writePending r' buf ha hr hb =>
    simp [untilAccept, Event.isAccept, perror, connectedLine, receivedLine, writeCall] at hread
    obtain ⟨⟨rfl, rfl⟩, rfl⟩ := hread
    exact ⟨rfl, rfl, ha, Or.inr (Or.inr (Or.inl ⟨hr, hb, buf, rfl⟩))⟩
  | served r' w buf nxt post ha hr hb =>
    have : c = a.ret ∧ k = 511 ∧ r = r' := by
      rcases writeLog_cases w with hw | hw <;> rw [hw] at hread <;>
        simp [untilAccept, Event.isAccept, perror, connectedLine, receivedLine, writeCall]
          at hread <;> tauto
    obtain ⟨rfl, rfl, rfl⟩ := this
    exact ⟨rfl, rfl, ha, Or.inr (Or.inr (Or.inr ⟨hr, hb, buf, w, nxt, post, rfl⟩))⟩

/-- A segment that contains a completed `write` is a served one. -/
theorem Segment.of_write {s : Int} {a : Resp} {post : List Event} (hseg : Segment s a post)
    {c : Int} {bytes : List Byte} {k : Nat} {w : Resp}
    (hwrite : Event.sys (.write c bytes k) (some w) ∈ untilAccept post) :
    Call.write c bytes k = writeCall a.ret ∧ 0 ≤ a.ret ∧
    ∃ r buf nxt post', 0 ≤ r.ret ∧ r.ret < (BUF_SIZE : Int) ∧
        post = [connectedLine a, .sys (.read a.ret 511) (some r),
          receivedLine (terminated buf r), .sys (writeCall a.ret) (some w)] ++ writeLog w
          ++ .sys (.close a.ret) none :: .sys (.accept s) nxt :: post' := by
  cases hseg with
  | acceptFail nxt post ha =>
    simp [untilAccept, Event.isAccept, perror] at hwrite
  | readPending ha =>
    simp [untilAccept, Event.isAccept, perror, connectedLine] at hwrite
  | readFail r' nxt post ha hr =>
    simp [untilAccept, Event.isAccept, perror, connectedLine] at hwrite
  | fault r' ha hr =>
    simp [untilAccept, Event.isAccept, perror, connectedLine] at hwrite
  | writePending r' buf ha hr hb =>
    simp [untilAccept, Event.isAccept, perror, connectedLine, receivedLine, writeCall] at hwrite
  | served r' w' buf nxt post ha hr hb =>
    have : Call.write c bytes k = writeCall a.ret ∧ w = w' := by
      rcases writeLog_cases w' with hw | hw <;> rw [hw] at hwrite <;>
        simp [untilAccept, Event.isAccept, perror, connectedLine, receivedLine, writeCall]
          at hwrite <;> simp [writeCall, hwrite]
    obtain ⟨h1, rfl⟩ := this
    exact ⟨h1, ha, r', buf, nxt, post, hr, hb, rfl⟩

theorem writeCall_eq (c : Int) : writeCall c = .write c (strBytes "httpd v1.0\n") 11 := by
  have h1 : data.take (strlen data) = strBytes "httpd v1.0\n" := by decide
  have h2 : strlen data = 11 := by decide
  unfold writeCall
  rw [h1, h2]

theorem writeLog_eq (w : Resp) (hlo : -2 ^ 63 ≤ w.ret) (hhi : w.ret < 2 ^ 63) :
    writeLog w = if w.ret ≠ 11 then [perror "write" w.err] else [] := by
  have h2 : strlen data = 11 := by decide
  have : (w.ret % 2 ^ SIZE_BITS ≠ ((strlen data : Nat) : Int)) ↔ w.ret ≠ 11 := by
    rw [h2]
    simp only [SIZE_BITS]
    constructor
    · intro h h'
      rw [h'] at h
      exact h (by norm_num)
    · intro h h'
      apply h
      omega
  unfold writeLog
  simp only [this]

theorem takeWhile_append_stop {α : Type} (p : α → Bool) (l t : List α) (x : α)
    (hx : p x = false) : (l ++ x :: t).takeWhile p = l.takeWhile p := by
  induction l with
  | nil => simp [List.takeWhile, hx]
  | cons y l ih =>
    simp only [List.cons_append, List.takeWhile]
    cases p y <;> simp [ih]

theorem set_length_append {α : Type} (l t : List α) (v : α) :
    (l ++ t).set l.length v = l ++ t.set 0 v := by
  induction l with
  | nil => simp
  | cons y l ih => simp [ih]

/-- The text that `%s` prints after the terminator is stored is the delivered
payload up to its first zero byte, whatever the buffer held before. -/
theorem cstr_terminated (buf : List Byte) (r : Resp) (hlen : (r.data.length : Int) = r.ret) :
    cstr (terminated buf r) = cstr r.data := by
  have hn : r.ret.toNat = r.data.length := by omega
  unfold terminated bufFill
  rw [hn, set_length_append]
  cases h : List.drop r.data.length buf with
  | nil => simp
  | cons x t =>
    simp only [List.set_cons_zero]
    unfold cstr
    exact takeWhile_append_stop _ _ _ _ (by simp)

theorem perror_read (e : List Byte) :
    perror "read" e = .out .stderr (strBytes "read: " ++ e ++ strBytes "\n") := by
  have : strBytes "read" ++ strBytes ": " = strBytes "read: " := by decide
  rw [perror, this]

theorem perror_accept (e : List Byte) :
    perror "accept" e = .out .stderr (strBytes "accept: " ++ e ++ strBytes "\n") := by
  have : strBytes "accept" ++ strBytes ": " = strBytes "accept: " := by decide
  rw [perror, this]

theorem perror_write (e : List Byte) :
    perror "write" e = .out .stderr (strBytes "write: " ++ e ++ strBytes "\n") := by
  have : strBytes "write" ++ strBytes ": " = strBytes "write: " := by decide
  rw [perror, this]

theorem writesOf_append (t u : List Event) : writesOf (t ++ u) = writesOf t ++ writesOf u := by
  simp [writesOf, callsOf]

theorem writesOf_writeLog (w : Resp) : writesOf (writeLog w) = [] := by
  rcases writeLog_cases w with h | h <;> simp [h, writesOf, callsOf, perror]

theorem map_ret_cons {env' : List Resp} {v : Int} {vs : List Int}
    (h : env'.map Resp.ret = v :: vs) :
    ∃ a' tl, env' = a' :: tl ∧ a'.ret = v ∧ tl.map Resp.ret = vs := by
  cases env' with
  | nil => simp at h
  | cons a' tl =>
    simp at h
    exact ⟨a', tl, rfl, h.1, h.2⟩

/-- The `write` calls of a trace of the loop depend on the return values of
the environment only. -/
theorem writesOf_loop_rets (s : Int) (buf : List Byte) (env : List Resp) :
    ∀ buf' env', env'.map Resp.ret = env.map Resp.ret →
      writesOf (acceptLoop s buf' env').trace = writesOf (acceptLoop s buf env).trace := by
  induction buf, env using acceptLoop_induction with
  | nil buf =>
    intro buf' env' h
    simp at h
    subst h
    simp [acceptLoop_nil]
  | acceptFail buf a env ha ih =>
    intro buf' env' h
    obtain ⟨a', env', rfl, h1, h⟩ := map_ret_cons h
    rw [acceptLoop_accept_fail _ _ _ _ ha, acceptLoop_accept_fail _ _ _ _ (h1 ▸ ha)]
    simp only [Run.prepend_trace, writesOf_append]
    rw [ih buf' env' h]
    simp [writesOf, callsOf, perror, Call.isWrite]
  | readPending buf a ha =>
    intro buf' env' h
    obtain ⟨a', env', rfl, h1, h⟩ := map_ret_cons h
    simp at h
    subst h
    rw [acceptLoop_read_pending _ _ _ ha, acceptLoop_read_pending _ _ _ (h1 ▸ ha)]
    simp [writesOf, callsOf, connectedLine, Call.isWrite]
  | readFail buf a r env ha hr ih =>
    intro buf' env' h
    obtain ⟨a', env', rfl, h1, h⟩ := map_ret_cons h
    obtain ⟨r', env', rfl, h2, h⟩ := map_ret_cons h
    rw [acceptLoop_read_fail _ _ _ _ _ ha hr,
      acceptLoop_read_fail _ _ _ _ _ (h1 ▸ ha) (h2 ▸ hr)]
    simp only [Run.prepend_trace, writesOf_append]
    rw [ih buf' env' h]
    simp [writesOf, callsOf, perror, connectedLine, Call.isWrite]
  | fault buf a r env ha hr =>
    intro buf' env' h
    obtain ⟨a', env', rfl, h1, h⟩ := map_ret_cons h
    obtain ⟨r', env', rfl, h2, h⟩ := map_ret_cons h
    rw [acceptLoop_fault _ _ _ _ _ ha hr,
      acceptLoop_fault _ _ _ _ _ (h1 ▸ ha) (h2 ▸ hr)]
    simp [writesOf, callsOf, connectedLine, Call.isWrite]
  | writePending buf a r ha hr hb =>
    intro buf' env' h
    obtain ⟨a', env', rfl, h1, h⟩ := map_ret_cons h
    obtain ⟨r', env', rfl, h2, h⟩ := map_ret_cons h
    simp at h
    subst h
    rw [acceptLoop_write_pending _ _ _ _ ha hr hb,
      acceptLoop_write_pending _ _ _ _ (h1 ▸ ha) (h2 ▸ hr) (h2 ▸ hb)]
    simp [writesOf, callsOf, connectedLine, receivedLine, h1, Call.isWrite]
  | served buf a r w env ha hr hb ih =>
    intro buf' env' h
    obtain ⟨a', env', rfl, h1, h⟩ := map_ret_cons h
    obtain ⟨r', env', rfl, h2, h⟩ := map_ret_cons h
    obtain ⟨w', env', rfl, h3, h⟩ := map_ret_cons h
    rw [acceptLoop_served _ _ _ _ _ _ ha hr hb,
      acceptLoop_served _ _ _ _ _ _ (h1 ▸ ha) (h2 ▸ hr) (h2 ▸ hb)]
    simp only [Run.prepend_trace, writesOf_append, writesOf_writeLog]
    rw [ih _ env' h]
    simp [writesOf, callsOf, connectedLine, receivedLine, h1, Call.isWrite]

theorem writesOf_startupOnly (t : List Event) (h : ∀ e ∈ t, e.isStartup = true) :
    writesOf t = [] := by
  induction t with
  | nil => rfl
  | cons e t ih =>
    have he := h e (List.mem_cons_self _ _)
    have ht := ih (fun e' he' => h e' (List.mem_cons_of_mem _ he'))
    have : writesOf (e :: t) = writesOf [e] ++ writesOf t := writesOf_append [e] t
    rw [this, ht]
    revert he
    cases e with
    | sys c r => cases c <;> simp [Event.isStartup, writesOf, callsOf, Call.isWrite]
    | out st text => simp [writesOf, callsOf]

theorem started_not_startupOnly (buf : List Byte) (r1 r2 r3 r4 : Resp) (rest : List Resp)
    (h1 : 0 ≤ r1.ret) (h2 : 0 ≤ r2.ret) (h3 : 0 ≤ r3.ret) (h4 : 0 ≤ r4.ret) :
    ¬ ∀ e ∈ (main buf (r1 :: r2 :: r3 :: r4 :: rest)).trace, e.isStartup = true := by
  intro h
  rw [main_started _ _ _ _ _ _ h1 h2 h3 h4] at h
  obtain ⟨nxt, t, ht⟩ := acceptLoop_head r1.ret buf rest
  have := h (.sys (.accept r1.ret) nxt) (by simp [ht])
  simp [Event.isStartup] at this

theorem writesOf_main_rets (buf buf' : List Byte) (env env' : List Resp)
    (h : env'.map Resp.ret = env.map Resp.ret) :
    writesOf (main buf' env').trace = writesOf (main buf env).trace := by
  rcases main_cases buf env with ⟨r1, r2, r3, r4, rest, rfl, h1, h2, h3, h4, hm⟩ | ⟨hs, _, _⟩
  · obtain ⟨q1, env', rfl, e1, h⟩ := map_ret_cons h
    obtain ⟨q2, env', rfl, e2, h⟩ := map_ret_cons h
    obtain ⟨q3, env', rfl, e3, h⟩ := map_ret_cons h
    obtain ⟨q4, env', rfl, e4, h⟩ := map_ret_cons h
    rw [hm, main_started _ _ _ _ _ _ (e1 ▸ h1) (e2 ▸ h2) (e3 ▸ h3) (e4 ▸ h4)]
    simp only [Run.prepend_trace, writesOf_append]
    rw [e1, writesOf_loop_rets r1.ret buf rest buf' env' h]
    simp [writesOf, callsOf, startup, Call.isWrite]
  · rcases main_cases buf' env' with ⟨q1, q2, q3, q4, rest, rfl, h1, h2, h3, h4, _⟩ | ⟨hs', _, _⟩
    · exfalso
      obtain ⟨r1, env, rfl, e1, h⟩ := map_ret_cons h.symm
      obtain ⟨r2, env, rfl, e2, h⟩ := map_ret_cons h
      obtain ⟨r3, env, rfl, e3, h⟩ := map_ret_cons h
      obtain ⟨r4, env, rfl, e4, h⟩ := map_ret_cons h
      exact started_not_startupOnly buf r1 r2 r3 r4 env (e1 ▸ h1) (e2 ▸ h2) (e3 ▸ h3)
        (e4 ▸ h4) hs
    · rw [writesOf_startupOnly _ hs, writesOf_startupOnly _ hs']

/-- Claim C1: for every accepted connection whose `read` returns `0 ≤ n ≤ 511`,
whatever bytes it delivers, the connection's only `write` is the call on the
accepted descriptor with the 11 bytes `httpd v1.0\n` and requested length 11;
and any other run in which the calls return the same values, whatever payload
bytes are delivered, hands the very same `write` calls to the system. -/
theorem reply_is_fixed_banner (buf0 : List Byte) (env : List Resp) (s : Int) (a : Resp)
    (post : List Event) (c : Int) (k : Nat) (r : Resp)
    (h : (Event.sys (.accept s) (some a) :: post) <:+ (main buf0 env).trace)
    (hread : Event.sys (.read c k) (some r) ∈ untilAccept post)
    (h0 : 0 ≤ r.ret) (h511 : r.ret ≤ 511) :
    writesOf (untilAccept post) = [Call.write a.ret (strBytes "httpd v1.0\n") 11] ∧
    (strBytes "httpd v1.0\n").length = 11 ∧
    ∀ buf' env', env'.map Resp.ret = env.map Resp.ret →
      writesOf (main buf' env').trace = writesOf (main buf0 env).trace := by
  obtain ⟨_, hseg, _⟩ := main_segment _ _ _ _ _ h
  obtain ⟨rfl, rfl, ha, hcase⟩ := hseg.of_read hread
  refine ⟨?_, by decide, fun buf' env' he => writesOf_main_rets _ _ _ _ he⟩
  rcases hcase with ⟨hneg, _⟩ | ⟨hbig, _⟩ | ⟨_, _, buf, rfl⟩ | ⟨_, _, buf, w, nxt, post', rfl⟩
  · omega
  · simp [BUF_SIZE] at hbig; omega
  · simp [untilAccept, Event.isAccept, writesOf, callsOf, connectedLine, receivedLine,
      writeCall_eq, Call.isWrite]
  · rcases writeLog_cases w with hw | hw <;> rw [hw] <;>
    simp [untilAccept, Event.isAccept, writesOf, callsOf, connectedLine, receivedLine,
      writeCall_eq, Call.isWrite, perror]

theorem reply_is_fixed_banner_witness :
    (Event.sys (.accept 3) (some pingAccept) :: pingPost) <:+ (main zeros pingEnv).trace ∧
    Event.sys (.read 4 511) (some pingRead) ∈ untilAccept pingPost ∧
    writesOf (untilAccept pingPost) = [Call.write 4 (strBytes "httpd v1.0\n") 11] ∧
    writesOf (main zeros quitEnv).trace = writesOf (main zeros pingEnv).trace :=
  have h := reply_is_fixed_banner zeros pingEnv 3 pingAccept pingPost 4 511 pingRead
    (by decide) (by decide) (by decide) (by decide)
  ⟨by decide, by decide, h.1, h.2.2 zeros quitEnv (by decide)⟩

/-- Claim C2: for every accepted connection whose `read` returns a negative value,
what follows the `accept` is exactly: the connect line, the `read`, the line
`read: <error>` on standard error, `close` of the connection, and the next
call of `accept` on the listening socket (the descriptor `socket` returned);
the connection sees no `write`, and `main` has not returned. -/
theorem failed_read_aborts_exchange (buf0 : List Byte) (env : List Resp) (s : Int) (a : Resp)
    (post : List Event) (c : Int) (k : Nat) (r : Resp)
    (h : (Event.sys (.accept s) (some a) :: post) <:+ (main buf0 env).trace)
    (hread : Event.sys (.read c k) (some r) ∈ untilAccept post)
    (hneg : r.ret < 0) :
    (∃ nxt post', post = [connectedLine a, .sys (.read a.ret 511) (some r),
        .out .stderr (strBytes "read: " ++ r.err ++ strBytes "\n"),
        .sys (.close a.ret) none, .sys (.accept s) nxt] ++ post') ∧
    writesOf (untilAccept post) = [] ∧
    (∃ r0 tl, env = r0 :: tl ∧ s = r0.ret) ∧
    ∀ code, (main buf0 env).status ≠ .exited code := by
  obtain ⟨hs, hseg, hst⟩ := main_segment _ _ _ _ _ h
  obtain ⟨rfl, rfl, ha, hcase⟩ := hseg.of_read hread
  have hex : ∀ code, (main buf0 env).status ≠ .exited code := by
    intro code
    rcases hst with h | h <;> simp [h]
  rcases hcase with ⟨_, nxt, post', rfl⟩ | ⟨hbig, _⟩ | ⟨h0, _⟩ | ⟨h0, _⟩
  · refine ⟨⟨nxt, post', ?_⟩, ?_, hs, hex⟩
    · simp [perror_read]
    · simp [untilAccept, Event.isAccept, writesOf, callsOf, connectedLine, perror,
        Call.isWrite]
  · simp [BUF_SIZE] at hbig; omega
  · omega
  · omega

theorem failed_read_aborts_exchange_witness :
    (Event.sys (.accept 3) (some pingAccept) :: resetPost) <:+ (main zeros resetEnv).trace ∧
    Event.sys (.read 4 511) (some resetResp) ∈ untilAccept resetPost ∧
    resetResp.ret < 0 ∧
    writesOf (untilAccept resetPost) = [] ∧
    (main zeros resetEnv).status ≠ .exited 1 :=
  have h := failed_read_aborts_exchange zeros resetEnv 3 pingAccept resetPost 4 511 resetResp
    (by decide) (by decide) (by decide)
  ⟨by decide, by decide, by decide, h.2.1, h.2.2.2 1⟩

theorem acceptFailures_loop (s : Int) (buf : List Byte) (fails rest : List Resp)
    (hf : ∀ f ∈ fails, f.ret < 0) :
    acceptLoop s buf (fails ++ rest)
      = Run.prepend (acceptFailures s fails) (acceptLoop s buf rest) := by
  induction fails with
  | nil => simp [acceptFailures, Run.prepend]
  | cons f fails ih =>
    have hf0 : f.ret < 0 := hf f (List.mem_cons_self _ _)
    rw [List.cons_append, acceptLoop_accept_fail _ _ _ _ hf0,
      ih (fun g hg => hf g (List.mem_cons_of_mem _ hg))]
    simp [Run.prepend, acceptFailures]

/-- Claim C5: for every call of `accept` that returns a negative value, what follows
is exactly the line `accept: <error>` on standard error and then the next call
of `accept` on the same listening socket (no `read`, `write` or `close` in
between), and `main` has not returned; and after a successful startup any
number of consecutive failing `accept` results produces just that pair of
events once per failure, with the loop carrying on behind them. -/
theorem failed_accept_is_retried (buf0 : List Byte) (env : List Resp) (s : Int) (a : Resp)
    (post : List Event)
    (h : (Event.sys (.accept s) (some a) :: post) <:+ (main buf0 env).trace)
    (hneg : a.ret < 0) :
    (∃ nxt post', post = .out .stderr (strBytes "accept: " ++ a.err ++ strBytes "\n")
        :: .sys (.accept s) nxt :: post') ∧
    (∃ r0 tl, env = r0 :: tl ∧ s = r0.ret) ∧
    (∀ code, (main buf0 env).status ≠ .exited code) ∧
    ∀ (r1 r2 r3 r4 : Resp) (fails rest : List Resp), 0 ≤ r1.ret → 0 ≤ r2.ret → 0 ≤ r3.ret →
      0 ≤ r4.ret → (∀ f ∈ fails, f.ret < 0) →
      main buf0 (r1 :: r2 :: r3 :: r4 :: (fails ++ rest))
        = Run.prepend (startup r1 r2 r3 r4 ++ acceptFailures r1.ret fails)
            (acceptLoop r1.ret buf0 rest) := by
  obtain ⟨hs, hseg, hst⟩ := main_segment _ _ _ _ _ h
  have hex : ∀ code, (main buf0 env).status ≠ .exited code := by
    intro code
    rcases hst with h | h <;> simp [h]
  refine ⟨?_, hs, hex, ?_⟩
  · cases hseg with
    | acceptFail nxt post ha => exact ⟨nxt, post, by rw [perror_accept]⟩
    | readPending ha => omega
    | readFail r' nxt post ha hr => omega
    | fault r' ha hr => omega
    | writePending r' buf ha hr hb => omega
    | served r' w buf nxt post ha hr hb => omega
  · intro r1 r2 r3 r4 fails rest h1 h2 h3 h4 hf
    rw [main_started _ _ _ _ _ _ h1 h2 h3 h4, acceptFailures_loop _ _ _ _ hf]
    simp [Run.prepend]

theorem failed_accept_is_retried_witness :
    (Event.sys (.accept 3) (some emfile) :: emfilePost) <:+ (main zeros emfileEnv).trace ∧
    emfile.ret < 0 ∧
    (main zeros emfileEnv).status ≠ .exited 1 ∧
    main zeros (ret 3 :: ret 0 :: ret 0 :: ret 0 :: ([emfile, emfile] ++ []))
      = Run.prepend (startup (ret 3) (ret 0) (ret 0) (ret 0) ++ acceptFailures 3 [emfile, emfile])
          (acceptLoop 3 zeros []) :=
  have h := failed_accept_is_retried zeros emfileEnv 3 emfile emfilePost (by decide) (by decide)
  ⟨by decide, by decide, h.2.2.1 1,
    h.2.2.2 (ret 3) (ret 0) (ret 0) (ret 0) [emfile, emfile] [] (by decide) (by decide)
      (by decide) (by decide) (by decide)⟩

theorem closesOf_append (t u : List Event) : closesOf (t ++ u) = closesOf t ++ closesOf u := by
  simp [closesOf, callsOf]

theorem stderrOf_append (t u : List Event) : stderrOf (t ++ u) = stderrOf t ++ stderrOf u := by
  simp [stderrOf]

/-- Claim C7: for every `write` on a connection that returned `r` (an `ssize_t`
value), what follows the `accept` is exactly: the connect line, the `read`,
the receive line, that one `write` of the 11-byte reply, then the line
`write: <error>` on standard error if and only if `r ≠ 11` (so also for
`r = -1`), then `close` of the connection and the next `accept`; the
connection sees one `write` and one `close`. -/
theorem write_failure_logged_iff (buf0 : List Byte) (env : List Resp) (s : Int) (a : Resp)
    (post : List Event) (c : Int) (bytes : List Byte) (k : Nat) (w : Resp)
    (h : (Event.sys (.accept s) (some a) :: post) <:+ (main buf0 env).trace)
    (hwrite : Event.sys (.write c bytes k) (some w) ∈ untilAccept post)
    (hlo : -2 ^ 63 ≤ w.ret) (hhi : w.ret < 2 ^ 63) :
    (∃ r buf nxt post', post = [connectedLine a, .sys (.read a.ret 511) (some r),
        receivedLine buf, .sys (.write a.ret (strBytes "httpd v1.0\n") 11) (some w)]
        ++ (if w.ret ≠ 11 then [.out .stderr (strBytes "write: " ++ w.err ++ strBytes "\n")]
            else [])
        ++ [.sys (.close a.ret) none, .sys (.accept s) nxt] ++ post') ∧
    (stderrOf (untilAccept post)
      = if w.ret ≠ 11 then [strBytes "write: " ++ w.err ++ strBytes "\n"] else []) ∧
    writesOf (untilAccept post) = [Call.write a.ret (strBytes "httpd v1.0\n") 11] ∧
    closesOf (untilAccept post) = [Call.close a.ret] ∧
    Call.write c bytes k = Call.write a.ret (strBytes "httpd v1.0\n") 11 := by
  obtain ⟨_, hseg, _⟩ := main_segment _ _ _ _ _ h
  obtain ⟨hc, ha, r, buf, nxt, post', _, _, rfl⟩ := hseg.of_write hwrite
  rw [writeCall_eq] at hc
  refine ⟨⟨r, terminated buf r, nxt, post', ?_⟩, ?_, ?_, ?_, hc⟩
  · rw [writeLog_eq w hlo hhi, writeCall_eq, perror_write]
    simp
  · rw [writeLog_eq w hlo hhi, perror_write]
    split <;>
      simp [untilAccept, Event.isAccept, stderrOf, connectedLine, receivedLine, writeCall_eq]
  · rcases writeLog_cases w with hw | hw <;> rw [hw] <;>
    simp [untilAccept, Event.isAccept, writesOf, callsOf, connectedLine, receivedLine,
      writeCall_eq, Call.isWrite, perror]
  · rcases writeLog_cases w with hw | hw <;> rw [hw] <;>
    simp [untilAccept, Event.isAccept, closesOf, callsOf, connectedLine, receivedLine,
      writeCall_eq, Call.isClose, perror]

theorem write_failure_logged_iff_witness :
    (Event.sys (.accept 3) (some pingAccept) :: pipePost) <:+ (main zeros pipeEnv).trace ∧
    Event.sys (.write 4 (strBytes "httpd v1.0\n") 11) (some pipeWrite) ∈ untilAccept pipePost ∧
    pipeWrite.ret = -1 ∧
    stderrOf (untilAccept pipePost) = [strBytes "write: Broken pipe\n"] ∧
    writesOf (untilAccept pipePost) = [Call.write 4 (strBytes "httpd v1.0\n") 11] ∧
    closesOf (untilAccept pipePost) = [Call.close 4] :=
  have h := write_failure_logged_iff zeros pipeEnv 3 pingAccept pipePost 4
    (strBytes "httpd v1.0\n") 11 pipeWrite (by decide) (by decide) (by decide) (by decide)
  ⟨by decide, by decide, rfl, h.2.1, h.2.2.1, h.2.2.2.1⟩

/-- Claim C8, as amended: for every payload of `n` bytes (`0 ≤ n ≤ 511`) returned by
a successful `read`, the event right after the `read` is the standard-output
line `Received: ` followed by the payload bytes that precede the payload's
first zero byte and a newline; these are all `n` bytes when no payload byte is
zero, and nothing the buffer held before is appended. -/
theorem received_line_is_payload_text (buf0 : List Byte) (env : List Resp) (s : Int)
    (a : Resp) (post : List Event) (c : Int) (k : Nat) (r : Resp)
    (h : (Event.sys (.accept s) (some a) :: post) <:+ (main buf0 env).trace)
    (hread : Event.sys (.read c k) (some r) ∈ untilAccept post)
    (h0 : 0 ≤ r.ret) (h511 : r.ret ≤ 511) (hlen : (r.data.length : Int) = r.ret) :
    (∃ post', post = [connectedLine a, .sys (.read a.ret 511) (some r),
        .out .stdout (strBytes "Received: " ++ r.data.takeWhile (fun b => b != 0)
          ++ strBytes "\n")] ++ post') ∧
    ((∀ b ∈ r.data, b ≠ 0) → r.data.takeWhile (fun b => b != 0) = r.data) := by
  obtain ⟨_, hseg, _⟩ := main_segment _ _ _ _ _ h
  obtain ⟨rfl, rfl, ha, hcase⟩ := hseg.of_read hread
  refine ⟨?_, fun hnz => ?_⟩
  · rcases hcase with ⟨hneg, _⟩ | ⟨hbig, _⟩ | ⟨_, _, buf, rfl⟩ | ⟨_, _, buf, w, nxt, post', rfl⟩
    · omega
    · simp [BUF_SIZE] at hbig; omega
    · exact ⟨[.sys (writeCall a.ret) none], by
        rw [receivedLine, cstr_terminated buf r hlen]; rfl⟩
    · exact ⟨.sys (writeCall a.ret) (some w) :: (writeLog w
          ++ .sys (.close a.ret) none :: .sys (.accept s) nxt :: post'), by
        rw [receivedLine, cstr_terminated buf r hlen]; rfl⟩
  · rw [List.takeWhile_eq_self_iff]
    intro b hb
    simpa using hnz b hb

theorem received_line_is_payload_text_witness :
    (Event.sys (.accept 3) (some pingAccept) :: pingPost) <:+ (main zeros pingEnv).trace ∧
    Event.sys (.read 4 511) (some pingRead) ∈ untilAccept pingPost ∧
    (pingRead.data.length : Int) = pingRead.ret ∧
    ∃ post', pingPost = [connectedLine pingAccept, .sys (.read 4 511) (some pingRead),
        .out .stdout (strBytes "Received: " ++ pingRead.data.takeWhile (fun b => b != 0)
          ++ strBytes "\n")] ++ post' :=
  have h := received_line_is_payload_text zeros pingEnv 3 pingAccept pingPost 4 511 pingRead
    (by decide) (by decide) (by decide) (by decide) (by decide)
  ⟨by decide, by decide, by decide, h.1⟩

/-- Claim C8, as stated, fails: a 3-byte payload `a`, zero byte, `b` is read in
full, yet standard output carries `Received: a` and never the line with all
three payload bytes. -/
theorem received_line_stops_at_zero_byte :
    (Event.sys (.accept 3) (some pingAccept) :: nulPost) <:+ (main zeros nulEnv).trace ∧
    nulPayload.data = [97, 0, 98] ∧ nulPayload.ret = 3 ∧
    stdoutOf (main zeros nulEnv).trace
      = [strBytes "Listening on 0.0.0.0:8181\n",
         strBytes "Client connected from 10.0.0.7:40000\n",
         strBytes "Received: a\n"] ∧
    (strBytes "Received: " ++ nulPayload.data ++ strBytes "\n")
      ∉ stdoutOf (main zeros nulEnv).trace := by
  decide

/-- Claim C9, as stated, fails: when `socket` fails, nothing at all is written to
standard output; the error line is on standard error. -/
theorem socket_error_not_on_stdout :
    (main zeros [eacces]).trace.head?
      = some (.sys (.socket .AF_INET .SOCK_STREAM 0) (some eacces)) ∧
    eacces.ret < 0 ∧
    stdoutOf (main zeros [eacces]).trace = [] ∧
    stderrOf (main zeros [eacces]).trace = [strBytes "socket: Permission denied\n"] := by
  decide

theorem connectedLine_ne_listening (a : Resp) :
    connectedLine a ≠ .out .stdout (strBytes "Listening on 0.0.0.0:8181\n") := by
  have h1 : strBytes "Client connected from " = 67 :: strBytes "lient connected from " := by
    decide
  have h2 : strBytes "Listening on 0.0.0.0:8181\n" = 76 :: strBytes "istening on 0.0.0.0:8181\n" := by
    decide
  simp [connectedLine, h1, h2]

theorem receivedLine_ne_listening (b : List Byte) :
    receivedLine b ≠ .out .stdout (strBytes "Listening on 0.0.0.0:8181\n") := by
  have h1 : strBytes "Received: " = 82 :: strBytes "eceived: " := by decide
  have h2 : strBytes "Listening on 0.0.0.0:8181\n" = 76 :: strBytes "istening on 0.0.0.0:8181\n" := by
    decide
  simp [receivedLine, h1, h2]

/-- The loop never prints the startup confirmation. -/
theorem acceptLoop_no_listening (s : Int) (buf : List Byte) (env : List Resp) :
    Event.out .stdout (strBytes "Listening on 0.0.0.0:8181\n") ∉ (acceptLoop s buf env).trace := by
  induction buf, env using acceptLoop_induction with
  | nil buf => simp [acceptLoop_nil]
  | acceptFail buf a env ha ih =>
    simpa [acceptLoop_accept_fail _ _ _ _ ha, perror] using ih
  | readPending buf a ha =>
    simpa [acceptLoop_read_pending _ _ _ ha] using (connectedLine_ne_listening a).symm
  | readFail buf a r env ha hr ih =>
    simpa [acceptLoop_read_fail _ _ _ _ _ ha hr, perror] using
      ⟨(connectedLine_ne_listening a).symm, ih⟩
  | fault buf a r env ha hr =>
    simpa [acceptLoop_fault _ _ _ _ _ ha hr] using (connectedLine_ne_listening a).symm
  | writePending buf a r ha hr hb =>
    simpa [acceptLoop_write_pending _ _ _ _ ha hr hb] using
      ⟨(connectedLine_ne_listening a).symm, (receivedLine_ne_listening _).symm⟩
  | served buf a r w env ha hr hb ih =>
    rcases writeLog_cases w with hw | hw <;>
    simpa [acceptLoop_served _ _ _ _ _ _ ha hr hb, hw, perror] using
      ⟨(connectedLine_ne_listening a).symm, (receivedLine_ne_listening _).symm, ih⟩

/-- Claim C4: startup calls `socket`, `setsockopt(SO_REUSEADDR)`, `bind` (wildcard
address, port 8181) and `listen` (backlog 5) in that order; whichever of the
four is the first to return a negative value, `main` prints that step's error
line, attempts no later step, and returns 1, with neither the confirmation
`Listening on 0.0.0.0:8181` nor any call of `accept` in the run; when all four
succeed the confirmation follows and the accept loop starts; and in every run
the confirmation is printed exactly when all four steps have succeeded. -/
theorem startup_failure_exits_one (buf : List Byte) (r1 r2 r3 r4 : Resp) (rest : List Resp) :
    (r1.ret < 0 → main buf (r1 :: rest)
      = ⟨[.sys (.socket .AF_INET .SOCK_STREAM 0) (some r1), perror "socket" r1.err],
          .exited 1, buf⟩) ∧
    (0 ≤ r1.ret → r2.ret < 0 → main buf (r1 :: r2 :: rest)
      = ⟨[.sys (.socket .AF_INET .SOCK_STREAM 0) (some r1),
          .sys (.setsockopt r1.ret .SOL_SOCKET .SO_REUSEADDR 1) (some r2),
          perror "setsockopt" r2.err, .sys (.close r1.ret) none], .exited 1, buf⟩) ∧
    (0 ≤ r1.ret → 0 ≤ r2.ret → r3.ret < 0 → main buf (r1 :: r2 :: r3 :: rest)
      = ⟨[.sys (.socket .AF_INET .SOCK_STREAM 0) (some r1),
          .sys (.setsockopt r1.ret .SOL_SOCKET .SO_REUSEADDR 1) (some r2),
          .sys (.bind r1.ret .AF_INET .INADDR_ANY 8181) (some r3),
          perror "bind" r3.err, .sys (.close r1.ret) none], .exited 1, buf⟩) ∧
    (0 ≤ r1.ret → 0 ≤ r2.ret → 0 ≤ r3.ret → r4.ret < 0 → main buf (r1 :: r2 :: r3 :: r4 :: rest)
      = ⟨[.sys (.socket .AF_INET .SOCK_STREAM 0) (some r1),
          .sys (.setsockopt r1.ret .SOL_SOCKET .SO_REUSEADDR 1) (some r2),
          .sys (.bind r1.ret .AF_INET .INADDR_ANY 8181) (some r3),
          .sys (.listen r1.ret 5) (some r4),
          perror "listen" r4.err, .sys (.close r1.ret) none], .exited 1, buf⟩) ∧
    (0 ≤ r1.ret → 0 ≤ r2.ret → 0 ≤ r3.ret → 0 ≤ r4.ret → main buf (r1 :: r2 :: r3 :: r4 :: rest)
      = Run.prepend [.sys (.socket .AF_INET .SOCK_STREAM 0) (some r1),
          .sys (.setsockopt r1.ret .SOL_SOCKET .SO_REUSEADDR 1) (some r2),
          .sys (.bind r1.ret .AF_INET .INADDR_ANY 8181) (some r3),
          .sys (.listen r1.ret 5) (some r4),
          .out .stdout (strBytes "Listening on 0.0.0.0:8181\n")]
          (acceptLoop r1.ret buf rest)) ∧
    (∀ env, (Event.out .stdout (strBytes "Listening on 0.0.0.0:8181\n") ∈ (main buf env).trace
        ∨ ∃ e ∈ (main buf env).trace, e.isAccept = true) →
      ∃ q1 q2 q3 q4 tl, env = q1 :: q2 :: q3 :: q4 :: tl ∧ 0 ≤ q1.ret ∧ 0 ≤ q2.ret ∧
        0 ≤ q3.ret ∧ 0 ≤ q4.ret) ∧
    (∀ env, (∃ q1 q2 q3 q4 tl, env = q1 :: q2 :: q3 :: q4 :: tl ∧ 0 ≤ q1.ret ∧ 0 ≤ q2.ret ∧
        0 ≤ q3.ret ∧ 0 ≤ q4.ret) →
      stdoutOf ((main buf env).trace.take 5) = [strBytes "Listening on 0.0.0.0:8181\n"] ∧
      Event.out .stdout (strBytes "Listening on 0.0.0.0:8181\n")
        ∉ (main buf env).trace.drop 5) := by
  refine ⟨?_, ?_, ?_, ?_, ?_, ?_, ?_⟩
  · intro h1
    simp [main, h1, Run.prepend]
  · intro h1 h2
    simp [main, not_lt.mpr h1, h2, Run.prepend]
  · intro h1 h2 h3
    simp [main, not_lt.mpr h1, not_lt.mpr h2, h3, Run.prepend, PORT]
  · intro h1 h2 h3 h4
    simp [main, not_lt.mpr h1, not_lt.mpr h2, not_lt.mpr h3, h4, Run.prepend, PORT]
  · intro h1 h2 h3 h4
    rw [main_started _ _ _ _ _ _ h1 h2 h3 h4]
    rfl
  · intro env h
    rcases main_cases buf env with ⟨q1, q2, q3, q4, tl, he, h1, h2, h3, h4, _⟩ | ⟨hs, _, _⟩
    · exact ⟨q1, q2, q3, q4, tl, he, h1, h2, h3, h4⟩
    · exfalso
      rcases h with h | ⟨e, he, hacc⟩
      · have := hs _ h
        simp [Event.isStartup] at this
      · have := hs _ he
        revert this hacc
        cases e with
        | sys c r => cases c <;> simp [Event.isStartup, Event.isAccept]
        | out st t => simp [Event.isAccept]
  · rintro env ⟨q1, q2, q3, q4, tl, rfl, h1, h2, h3, h4⟩
    rw [main_started _ _ _ _ _ _ h1 h2 h3 h4]
    refine ⟨by simp [startup, stdoutOf], ?_⟩
    simpa [startup] using acceptLoop_no_listening q1.ret buf tl

theorem startup_failure_exits_one_witness :
    main zeros [ret 3, ret 0, ⟨-1, [], [], 0, strBytes "Address already in use"⟩]
      = ⟨[.sys (.socket .AF_INET .SOCK_STREAM 0) (some (ret 3)),
          .sys (.setsockopt 3 .SOL_SOCKET .SO_REUSEADDR 1) (some (ret 0)),
          .sys (.bind 3 .AF_INET .INADDR_ANY 8181)
            (some ⟨-1, [], [], 0, strBytes "Address already in use"⟩),
          .out .stderr (strBytes "bind: Address already in use\n"),
          .sys (.close 3) none], .exited 1, zeros⟩ ∧
    stdoutOf ((main zeros pingEnv).trace.take 5) = [strBytes "Listening on 0.0.0.0:8181\n"] :=
  have h := startup_failure_exits_one zeros (ret 3) (ret 0)
    ⟨-1, [], [], 0, strBytes "Address already in use"⟩ (ret 0) []
  ⟨h.2.2.1 (by decide) (by decide) (by decide),
    (h.2.2.2.2.2.2 pingEnv ⟨_, _, _, _, _, rfl, by decide, by decide, by decide, by decide⟩).1⟩

theorem isStartup_not_accept (e : Event) (h : e.isStartup = true) : e.isAccept = false := by
  revert h
  cases e with
  | sys c r => cases c <;> simp [Event.isStartup, Event.isAccept]
  | out st t => simp [Event.isAccept]

/-- Claim C6: `main` never returns 0; whenever it returns, the value is 1, one of the
four startup results was negative, and `accept` was never called; the accept
loop itself, from any state and against any results, neither returns from
`main` nor leaves the `while` statement, so once `listen` has succeeded `main`
does not return. -/
theorem main_never_returns_zero (buf0 : List Byte) (env : List Resp) :
    (main buf0 env).status ≠ .exited 0 ∧
    (∀ code, (main buf0 env).status = .exited code →
      code = 1 ∧ (∃ r ∈ env.take 4, r.ret < 0) ∧
      ∀ e ∈ (main buf0 env).trace, e.isAccept = false) ∧
    (∀ s buf code, (acceptLoop s buf env).status ≠ .exited code) ∧
    (∀ s buf, (acceptLoop s buf env).status ≠ .loopExit) ∧
    (∀ q1 q2 q3 q4 tl, env = q1 :: q2 :: q3 :: q4 :: tl → 0 ≤ q1.ret → 0 ≤ q2.ret →
      0 ≤ q3.ret → 0 ≤ q4.ret → ∀ code, (main buf0 env).status ≠ .exited code) := by
  have key : ∀ code, (main buf0 env).status = .exited code →
      code = 1 ∧ (∃ r ∈ env.take 4, r.ret < 0) ∧
      ∀ e ∈ (main buf0 env).trace, e.isAccept = false := by
    intro code hcode
    rcases main_cases buf0 env with ⟨q1, q2, q3, q4, tl, rfl, h1, h2, h3, h4, hm⟩ | ⟨hs, hst, _⟩
    · rw [hm] at hcode
      rcases acceptLoop_status q1.ret buf0 tl with h | h <;> simp [h] at hcode
    · rcases hst with h | ⟨h, hr⟩
      · simp [h] at hcode
      · rw [h] at hcode
        simp at hcode
        exact ⟨hcode.symm, hr, fun e he => isStartup_not_accept e (hs e he)⟩
  refine ⟨?_, key, ?_, ?_, ?_⟩
  · intro h0
    have := (key 0 h0).1
    omega
  · intro s buf code
    rcases acceptLoop_status s buf env with h | h <;> simp [h]
  · intro s buf
    exact acceptLoop_not_loopExit s buf env
  · rintro q1 q2 q3 q4 tl rfl h1 h2 h3 h4 code
    rw [main_started _ _ _ _ _ _ h1 h2 h3 h4]
    rcases acceptLoop_status q1.ret buf0 tl with h | h <;> simp [h]

theorem main_never_returns_zero_witness :
    (main zeros [eacces]).status = .exited 1 ∧
    (∃ r ∈ [eacces].take 4, r.ret < 0) ∧
    (∀ code, (main zeros pingEnv).status ≠ .exited code) :=
  ⟨by decide,
    ((main_never_returns_zero zeros [eacces]).2.1 1 (by decide)).2.1,
    (main_never_returns_zero zeros pingEnv).2.2.2.2 _ _ _ _ _ rfl (by decide) (by decide)
      (by decide) (by decide)⟩

theorem writeLog_of_failed (c : Int) (w : Resp) (hfail : (writeCall c).failedWith w.ret = true)
    (hlo : -2 ^ 63 ≤ w.ret) (hhi : w.ret < 2 ^ 63) :
    writeLog w = [perror "write" w.err] := by
  rw [writeLog_eq w hlo hhi]
  simp [writeCall_eq, Call.failedWith] at hfail
  simp [hfail]

/-- In a trace of the loop every failed step is followed at once by the line
`perror` prints for it. -/
theorem acceptLoop_failed_logged (s : Int) (buf : List Byte) (env : List Resp) :
    ∀ call r post, (Event.sys call (some r) :: post) <:+ (acceptLoop s buf env).trace →
      call.failedWith r.ret = true → -2 ^ 63 ≤ r.ret → r.ret < 2 ^ 63 →
      ∃ post', post = perror call.name r.err :: post' := by
  induction buf, env using acceptLoop_induction with
  | nil buf =>
    intro call r post h
    rw [acceptLoop_nil] at h
    simp [List.suffix_cons_iff] at h
  | acceptFail buf a0 env ha ih =>
    intro call r post h hfail hlo hhi
    rw [acceptLoop_accept_fail _ _ _ _ ha] at h
    simp [List.suffix_cons_iff] at h
    rcases h with ⟨⟨rfl, rfl⟩, rfl⟩ | h
    · exact ⟨_, rfl⟩
    · exact ih _ _ _ h hfail hlo hhi
  | readPending buf a0 ha =>
    intro call r post h hfail hlo hhi
    rw [acceptLoop_read_pending _ _ _ ha] at h
    simp [List.suffix_cons_iff] at h
    obtain ⟨⟨rfl, rfl⟩, rfl⟩ := h
    simp [Call.failedWith] at hfail
    omega
  | readFail buf a0 r0 env ha hr ih =>
    intro call r post h hfail hlo hhi
    rw [acceptLoop_read_fail _ _ _ _ _ ha hr] at h
    simp [List.suffix_cons_iff] at h
    rcases h with ⟨⟨rfl, rfl⟩, rfl⟩ | ⟨⟨rfl, rfl⟩, rfl⟩ | h
    · simp [Call.failedWith] at hfail
      omega
    · exact ⟨_, rfl⟩
    · exact ih _ _ _ h hfail hlo hhi
  | fault buf a0 r0 env ha hr =>
    intro call r post h hfail hlo hhi
    rw [acceptLoop_fault _ _ _ _ _ ha hr] at h
    simp [List.suffix_cons_iff] at h
    rcases h with ⟨⟨rfl, rfl⟩, rfl⟩ | ⟨⟨rfl, rfl⟩, rfl⟩
    · simp [Call.failedWith] at hfail
      omega
    · simp [Call.failedWith, BUF_SIZE] at hfail hr
      omega
  | writePending buf a0 r0 ha hr hb =>
    intro call r post h hfail hlo hhi
    rw [acceptLoop_write_pending _ _ _ _ ha hr hb] at h
    simp [List.suffix_cons_iff] at h
    rcases h with ⟨⟨rfl, rfl⟩, rfl⟩ | ⟨⟨rfl, rfl⟩, rfl⟩
    · simp [Call.failedWith] at hfail
      omega
    · simp [Call.failedWith] at hfail
      omega
  | served buf a0 r0 w env ha hr hb ih =>
    intro call r post h hfail hlo hhi
    rw [acceptLoop_served _ _ _ _ _ _ ha hr hb] at h
    rcases writeLog_cases w with hw | hw <;> rw [hw] at h <;>
      simp [List.suffix_cons_iff] at h
    · rcases h with ⟨⟨rfl, rfl⟩, rfl⟩ | ⟨⟨rfl, rfl⟩, rfl⟩ | ⟨⟨rfl, rfl⟩, rfl⟩ | h
      · simp [Call.failedWith] at hfail
        omega
      · simp [Call.failedWith] at hfail
        omega
      · rw [writeLog_of_failed _ _ hfail hlo hhi] at hw
        simp at hw
      · exact ih _ _ _ h hfail hlo hhi
    · rcases h with ⟨⟨rfl, rfl⟩, rfl⟩ | ⟨⟨rfl, rfl⟩, rfl⟩ | ⟨⟨rfl, rfl⟩, rfl⟩ | h
      · simp [Call.failedWith] at hfail
        omega
      · simp [Call.failedWith] at hfail
        omega
      · rw [writeCall_eq]
        exact ⟨_, rfl⟩
      · exact ih _ _ _ h hfail hlo hhi

/-- Standard output of the loop carries connect and receive lines only. -/
theorem acceptLoop_stdout (s : Int) (buf : List Byte) (env : List Resp) :
    ∀ text, Event.out .stdout text ∈ (acceptLoop s buf env).trace →
      (∃ a, Event.out .stdout text = connectedLine a) ∨
      (∃ b, Event.out .stdout text = receivedLine b) := by
  induction buf, env using acceptLoop_induction with
  | nil buf => simp [acceptLoop_nil]
  | acceptFail buf a env ha ih =>
    intro text h
    simp [acceptLoop_accept_fail _ _ _ _ ha, perror] at h
    exact ih text h
  | readPending buf a ha =>
    intro text h
    simp [acceptLoop_read_pending _ _ _ ha] at h
    exact Or.inl ⟨a, h⟩
  | readFail buf a r env ha hr ih =>
    intro text h
    simp [acceptLoop_read_fail _ _ _ _ _ ha hr, perror] at h
    rcases h with h | h
    · exact Or.inl ⟨a, h⟩
    · exact ih text h
  | fault buf a r env ha hr =>
    intro text h
    simp [acceptLoop_fault _ _ _ _ _ ha hr] at h
    exact Or.inl ⟨a, h⟩
  | writePending buf a r ha hr hb =>
    intro text h
    simp [acceptLoop_write_pending _ _ _ _ ha hr hb] at h
    rcases h with h | h
    · exact Or.inl ⟨a, h⟩
    · exact Or.inr ⟨_, h⟩
  | served buf a r w env ha hr hb ih =>
    intro text h
    rcases writeLog_cases w with hw | hw <;>
      simp [acceptLoop_served _ _ _ _ _ _ ha hr hb, hw, perror] at h
    · rcases h with h | h | h
      · exact Or.inl ⟨a, h⟩
      · exact Or.inr ⟨_, h⟩
      · exact ih text h
    · rcases h with h | h | h
      · exact Or.inl ⟨a, h⟩
      · exact Or.inr ⟨_, h⟩
      · exact ih text h

/-- Standard output of `main` carries the confirmation, connect lines and
receive lines only. -/
theorem main_stdout (buf : List Byte) (env : List Resp) :
    ∀ text, Event.out .stdout text ∈ (main buf env).trace →
      text = strBytes "Listening on 0.0.0.0:8181\n" ∨
      (∃ a, Event.out .stdout text = connectedLine a) ∨
      (∃ b, Event.out .stdout text = receivedLine b) := by
  intro text h
  rcases main_cases buf env with ⟨r1, r2, r3, r4, rest, rfl, h1, h2, h3, h4, hm⟩ | ⟨hs, _, _⟩
  · rw [hm] at h
    simp [startup] at h
    rcases h with h | h
    · exact Or.inl h
    · exact Or.inr (acceptLoop_stdout _ _ _ text h)
  · have := hs _ h
    simp [Event.isStartup] at this

/-- Claim C9, as amended: for each failed step among `socket`, `setsockopt`,
`bind`, `listen`, `accept`, `read` (negative result) and `write` (result other
than the requested count), the very next event of the run is a line on
standard error made of the operation's name, a colon and the system's error
text; standard output carries nothing but the confirmation and the
`Client connected` and `Received` lines. -/
theorem failed_step_logged_on_stderr (buf0 : List Byte) (env : List Resp) (call : Call)
    (r : Resp) (post : List Event)
    (h : (Event.sys call (some r) :: post) <:+ (main buf0 env).trace)
    (hfail : call.failedWith r.ret = true)
    (hlo : -2 ^ 63 ≤ r.ret) (hhi : r.ret < 2 ^ 63) :
    (∃ post', post = .out .stderr (strBytes call.name ++ strBytes ": " ++ r.err
      ++ strBytes "\n") :: post') ∧
    ∀ text, Event.out .stdout text ∈ (main buf0 env).trace →
      text = strBytes "Listening on 0.0.0.0:8181\n" ∨
      (∃ a, Event.out .stdout text = connectedLine a) ∨
      (∃ b, Event.out .stdout text = receivedLine b) := by
  refine ⟨?_, main_stdout buf0 env⟩
  show ∃ post', post = perror call.name r.err :: post'
  match env with
  | [] => simp [main, List.suffix_cons_iff] at h
  | r1 :: env =>
    by_cases h1 : r1.ret < 0
    · simp [main, h1, List.suffix_cons_iff] at h
      obtain ⟨⟨rfl, rfl⟩, rfl⟩ := h
      exact ⟨_, rfl⟩
    match env with
    | [] =>
      simp [main, h1, List.suffix_cons_iff] at h
      obtain ⟨⟨rfl, rfl⟩, rfl⟩ := h
      simp [Call.failedWith] at hfail
      omega
    | r2 :: env =>
      by_cases h2 : r2.ret < 0
      · simp [main, h1, h2, List.suffix_cons_iff] at h
        rcases h with ⟨⟨rfl, rfl⟩, rfl⟩ | ⟨⟨rfl, rfl⟩, rfl⟩
        · simp [Call.failedWith] at hfail
          omega
        · exact ⟨_, rfl⟩
      match env with
      | [] =>
        simp [main, h1, h2, List.suffix_cons_iff] at h
        rcases h with ⟨⟨rfl, rfl⟩, rfl⟩ | ⟨⟨rfl, rfl⟩, rfl⟩ <;>
        · simp [Call.failedWith] at hfail
          omega
      | r3 :: env =>
        by_cases h3 : r3.ret < 0
        · simp [main, h1, h2, h3, List.suffix_cons_iff] at h
          rcases h with ⟨⟨rfl, rfl⟩, rfl⟩ | ⟨⟨rfl, rfl⟩, rfl⟩ | ⟨⟨rfl, rfl⟩, rfl⟩
          · simp [Call.failedWith] at hfail
            omega
          · simp [Call.failedWith] at hfail
            omega
          · exact ⟨_, rfl⟩
        match env with
        | [] =>
          simp [main, h1, h2, h3, List.suffix_cons_iff] at h
          rcases h with ⟨⟨rfl, rfl⟩, rfl⟩ | ⟨⟨rfl, rfl⟩, rfl⟩ | ⟨⟨rfl, rfl⟩, rfl⟩ <;>
          · simp [Call.failedWith] at hfail
            omega
        | r4 :: env =>
          by_cases h4 : r4.ret < 0
          · simp [main, h1, h2, h3, h4, List.suffix_cons_iff] at h
            rcases h with ⟨⟨rfl, rfl⟩, rfl⟩ | ⟨⟨rfl, rfl⟩, rfl⟩ | ⟨⟨rfl, rfl⟩, rfl⟩ |
              ⟨⟨rfl, rfl⟩, rfl⟩
            · simp [Call.failedWith] at hfail
              omega
            · simp [Call.failedWith] at hfail
              omega
            · simp [Call.failedWith] at hfail
              omega
            · exact ⟨_, rfl⟩
          · rw [main_started _ _ _ _ _ _ (not_lt.mp h1) (not_lt.mp h2) (not_lt.mp h3)
              (not_lt.mp h4)] at h
            simp [startup, List.suffix_cons_iff] at h
            rcases h with ⟨⟨rfl, rfl⟩, rfl⟩ | ⟨⟨rfl, rfl⟩, rfl⟩ | ⟨⟨rfl, rfl⟩, rfl⟩ |
              ⟨⟨rfl, rfl⟩, rfl⟩ | h
            · simp [Call.failedWith] at hfail
              omega
            · simp [Call.failedWith] at hfail
              omega
            · simp [Call.failedWith] at hfail
              omega
            · simp [Call.failedWith] at hfail
              omega
            · exact acceptLoop_failed_logged _ _ _ _ _ _ h hfail hlo hhi

theorem failed_step_logged_on_stderr_witness :
    (Event.sys (.write 4 (strBytes "httpd v1.0\n") 11) (some pipeWrite) ::
        [.out .stderr (strBytes "write: Broken pipe\n"), .sys (.close 4) none,
         .sys (.accept 3) none]) <:+ (main zeros pipeEnv).trace ∧
    (Call.write 4 (strBytes "httpd v1.0\n") 11).failedWith pipeWrite.ret = true ∧
    ∃ post', [Event.out .stderr (strBytes "write: Broken pipe\n"), .sys (.close 4) none,
         .sys (.accept 3) none]
      = .out .stderr (strBytes "write" ++ strBytes ": " ++ pipeWrite.err ++ strBytes "\n")
          :: post' :=
  ⟨by decide, by decide,
    (failed_step_logged_on_stderr zeros pipeEnv (.write 4 (strBytes "httpd v1.0\n") 11)
      pipeWrite [.out .stderr (strBytes "write: Broken pipe\n"), .sys (.close 4) none,
         .sys (.accept 3) none] (by decide) (by decide) (by decide) (by decide)).1⟩

theorem openConns_startupOnly (t : List Event) (h : ∀ e ∈ t, e.isStartup = true) :
    openConns t = [] := by
  unfold openConns
  induction t with
  | nil => rfl
  | cons e t ih =>
    have he := h e (List.mem_cons_self _ _)
    have ht := ih (fun e' he' => h e' (List.mem_cons_of_mem _ he'))
    have : openStep [] e = [] := by
      revert he
      cases e with
      | sys c r => cases c <;> simp [Event.isStartup, openStep]
      | out st text => simp [openStep]
    simp [List.foldl, this, ht]

/-- Along a trace of the loop at most one client connection is open, and none
at a call of `accept`. -/
theorem acceptLoop_open (s : Int) (buf : List Byte) (env : List Resp) :
    ∀ k, (openConns ((acceptLoop s buf env).trace.take k)).length ≤ 1 ∧
      ∀ s' nxt, (acceptLoop s buf env).trace[k]? = some (.sys (.accept s') nxt) →
        openConns ((acceptLoop s buf env).trace.take k) = [] := by
  induction buf, env using acceptLoop_induction with
  | nil buf =>
    intro k
    rw [acceptLoop_nil]
    rcases k with _ | k <;> simp [openConns, openStep]
  | acceptFail buf a env ha ih =>
    intro k
    rw [acceptLoop_accept_fail _ _ _ _ ha]
    rcases k with _ | _ | k
    · simp [openConns]
    · simp [openConns, openStep, not_le.mpr ha, perror]
    · simpa [openConns, openStep, not_le.mpr ha, perror] using ih k
  | readPending buf a ha =>
    intro k
    rw [acceptLoop_read_pending _ _ _ ha]
    rcases k with _ | _ | _ | k <;> simp [openConns, openStep, ha, connectedLine]
  | readFail buf a r env ha hr ih =>
    intro k
    rw [acceptLoop_read_fail _ _ _ _ _ ha hr]
    rcases k with _ | _ | _ | _ | _ | k
    · simp [openConns]
    · simp [openConns, openStep, ha, connectedLine]
    · simp [openConns, openStep, ha, connectedLine]
    · simp [openConns, openStep, ha, connectedLine, perror]
    · simp [openConns, openStep, ha, connectedLine, perror]
    · simpa [openConns, openStep, ha, connectedLine, perror] using ih k
  | fault buf a r env ha hr =>
    intro k
    rw [acceptLoop_fault _ _ _ _ _ ha hr]
    rcases k with _ | _ | _ | k <;> simp [openConns, openStep, ha, connectedLine]
  | writePending buf a r ha hr hb =>
    intro k
    rw [acceptLoop_write_pending _ _ _ _ ha hr hb]
    rcases k with _ | _ | _ | _ | _ | k <;>
      simp [openConns, openStep, ha, connectedLine, receivedLine, writeCall]
  | served buf a r w env ha hr hb ih =>
    intro k
    rw [acceptLoop_served _ _ _ _ _ _ ha hr hb]
    rcases writeLog_cases w with hw | hw <;> rw [hw]
    · rcases k with _ | _ | _ | _ | _ | _ | k
      · simp [openConns]
      · simp [openConns, openStep, ha, connectedLine, receivedLine, writeCall]
      · simp [openConns, openStep, ha, connectedLine, receivedLine, writeCall]
      · simp [openConns, openStep, ha, connectedLine, receivedLine, writeCall]
      · simp [openConns, openStep, ha, connectedLine, receivedLine, writeCall]
      · simp [openConns, openStep, ha, connectedLine, receivedLine, writeCall]
      · simpa [openConns, openStep, ha, connectedLine, receivedLine, writeCall] using ih k
    · rcases k with _ | _ | _ | _ | _ | _ | _ | k
      · simp [openConns]
      · simp [openConns, openStep, ha, connectedLine, receivedLine, writeCall]
      · simp [openConns, openStep, ha, connectedLine, receivedLine, writeCall]
      · simp [openConns, openStep, ha, connectedLine, receivedLine, writeCall]
      · simp [openConns, openStep, ha, connectedLine, receivedLine, writeCall, perror]
      · simp [openConns, openStep, ha, connectedLine, receivedLine, writeCall, perror]
      · simp [openConns, openStep, ha, connectedLine, receivedLine, writeCall, perror]
      · simpa [openConns, openStep, ha, connectedLine, receivedLine, writeCall, perror]
          using ih k

/-- In any run of `main`, at most one client connection is open after any
number of events, and none when `accept` is called. -/
theorem main_open (buf : List Byte) (env : List Resp) :
    ∀ k, (openConns ((main buf env).trace.take k)).length ≤ 1 ∧
      ∀ s nxt, (main buf env).trace[k]? = some (.sys (.accept s) nxt) →
        openConns ((main buf env).trace.take k) = [] := by
  intro k
  rcases main_cases buf env with ⟨r1, r2, r3, r4, rest, rfl, h1, h2, h3, h4, hm⟩ | ⟨hs, _, _⟩
  · rw [hm]
    rcases k with _ | _ | _ | _ | _ | k
    · simp [openConns]
    · simp [openConns, openStep, startup]
    · simp [openConns, openStep, startup]
    · simp [openConns, openStep, startup]
    · simp [openConns, openStep, startup]
    · simpa [openConns, openStep, startup] using acceptLoop_open r1.ret buf rest k
  · have h0 : openConns ((main buf env).trace.take k) = [] :=
      openConns_startupOnly _ (fun e he => hs e (List.mem_of_mem_take he))
    exact ⟨by simp [h0], fun _ _ _ => h0⟩

/-- Claim C3: each descriptor returned by a successful `accept` is closed by the one
`close` call of its connection, before the next call of `accept`: among the
events from that `accept` up to the next one there is no `close` other than
that of the accepted descriptor and never a second one; there is exactly that
one whenever a next `accept` follows, and a next `accept` does follow as soon
as the connection's `read` has failed or its `write` has returned.  Hence,
counting along the run, no client connection is open at any call of `accept`
and at most one is open after any number of events. -/
theorem connection_closed_before_next_accept (buf0 : List Byte) (env : List Resp) :
    (∀ s a post, (Event.sys (.accept s) (some a) :: post) <:+ (main buf0 env).trace →
      0 ≤ a.ret →
      (closesOf (untilAccept post) = [] ∨ closesOf (untilAccept post) = [Call.close a.ret]) ∧
      ((∃ e ∈ post, e.isAccept = true) → closesOf (untilAccept post) = [Call.close a.ret]) ∧
      (((∃ c k r, Event.sys (.read c k) (some r) ∈ untilAccept post ∧ r.ret < 0) ∨
          (∃ c b k w, Event.sys (.write c b k) (some w) ∈ untilAccept post)) →
        ∃ e ∈ post, e.isAccept = true)) ∧
    (∀ k, (openConns ((main buf0 env).trace.take k)).length ≤ 1) ∧
    (∀ k s nxt, (main buf0 env).trace[k]? = some (.sys (.accept s) nxt) →
      openConns ((main buf0 env).trace.take k) = []) := by
  refine ⟨?_, fun k => (main_open buf0 env k).1, fun k s nxt => (main_open buf0 env k).2 s nxt⟩
  intro s a post h ha
  obtain ⟨_, hseg, _⟩ := main_segment _ _ _ _ _ h
  cases hseg with
  | acceptFail nxt post ha' => omega
  | readPending _ =>
    simp [untilAccept, Event.isAccept, closesOf, callsOf, connectedLine, Call.isClose]
  | readFail r nxt post _ hr =>
    simp [untilAccept, Event.isAccept, closesOf, callsOf, connectedLine, Call.isClose, perror]
  | fault r _ hr =>
    simp [untilAccept, Event.isAccept, closesOf, callsOf, connectedLine, Call.isClose]
    simp [BUF_SIZE] at hr
    rintro _ _ _ _ _ rfl
    omega
  | writePending r buf _ hr hb =>
    simp [untilAccept, Event.isAccept, closesOf, callsOf, connectedLine, receivedLine,
      writeCall, Call.isClose]
    rintro _ _ _ _ _ rfl
    omega
  | served r w buf nxt post _ hr hb =>
    rcases writeLog_cases w with hw | hw <;> rw [hw] <;>
    simp [untilAccept, Event.isAccept, closesOf, callsOf, connectedLine, receivedLine,
      writeCall, Call.isClose, perror]

theorem connection_closed_before_next_accept_witness :
    (Event.sys (.accept 3) (some pingAccept) :: pingPost) <:+ (main zeros pingEnv).trace ∧
    0 ≤ pingAccept.ret ∧
    (∃ e ∈ pingPost, e.isAccept = true) ∧
    closesOf (untilAccept pingPost) = [Call.close 4] ∧
    (main zeros pingEnv).trace[11]? = some (.sys (.accept 3) none) ∧
    openConns ((main zeros pingEnv).trace.take 11) = [] ∧
    openConns ((main zeros pingEnv).trace.take 8) = [4] :=
  have h := connection_closed_before_next_accept zeros pingEnv
  ⟨by decide, by decide, by decide,
    (h.1 3 pingAccept pingPost (by decide) (by decide)).2.1 (by decide),
    by decide, h.2.2 11 3 none (by decide), by decide⟩

/-- With a full-size buffer and a `read` that delivered `n ≤ 511` bytes, the
buffer after the terminator is stored. -/
theorem terminated_spec (buf : List Byte) (r : Resp) (hbuf : buf.length = BUF_SIZE)
    (hlen : (r.data.length : Int) = r.ret) (hn : r.ret ≤ 511) :
    (terminated buf r).length = BUF_SIZE ∧
    (terminated buf r).take r.ret.toNat = r.data ∧
    (terminated buf r)[r.ret.toNat]? = some 0 := by
  have hn' : r.ret.toNat = r.data.length := by omega
  have hlt : r.data.length < buf.length := by
    rw [hbuf, BUF_SIZE]
    omega
  unfold terminated bufFill
  rw [hn', set_length_append]
  cases h : List.drop r.data.length buf with
  | nil =>
    have := congrArg List.length h
    simp at this
    omega
  | cons x t =>
    have hl := congrArg List.length h
    simp at hl
    refine ⟨?_, ?_, ?_⟩
    · simp
      omega
    · simp
    · rw [List.getElem?_append_right (le_refl _)]
      simp

/-- In a run of the loop that starts with a full-size buffer and in which every
`read` honours its contract, no store is out of bounds, the buffer keeps its
size, and right after a `read` of `n` bytes the buffer holds them followed by
a zero byte. -/
theorem acceptLoop_buf (s : Int) (buf : List Byte) (env : List Resp) :
    buf.length = BUF_SIZE →
    (∀ c k r, Event.sys (.read c k) (some r) ∈ (acceptLoop s buf env).trace →
      r.ret ≤ k ∧ (0 ≤ r.ret → (r.data.length : Int) = r.ret)) →
    (acceptLoop s buf env).status ≠ .fault ∧
    (acceptLoop s buf env).buf.length = BUF_SIZE ∧
    ∀ c k r st text c' bytes k',
      [Event.sys (.read c k) (some r), .out st text, .sys (.write c' bytes k') none]
        <:+ (acceptLoop s buf env).trace → 0 ≤ r.ret →
      (acceptLoop s buf env).buf.take r.ret.toNat = r.data ∧
      (acceptLoop s buf env).buf[r.ret.toNat]? = some 0 := by
  induction buf, env using acceptLoop_induction with
  | nil buf =>
    intro hbuf _
    rw [acceptLoop_nil]
    simp [hbuf, List.suffix_cons_iff]
  | acceptFail buf a env ha ih =>
    intro hbuf hc
    rw [acceptLoop_accept_fail _ _ _ _ ha] at hc ⊢
    obtain ⟨h1, h2, h3⟩ := ih hbuf (fun c k r hm => hc c k r (by simp [hm]))
    refine ⟨h1, h2, ?_⟩
    intro c k r st text c' bytes k' hx h0
    simp [List.suffix_cons_iff, perror] at hx
    exact h3 c k r st text c' bytes k' hx h0
  | readPending buf a ha =>
    intro hbuf _
    rw [acceptLoop_read_pending _ _ _ ha]
    simp [hbuf, List.suffix_cons_iff]
  | readFail buf a r0 env ha hr ih =>
    intro hbuf hc
    rw [acceptLoop_read_fail _ _ _ _ _ ha hr] at hc ⊢
    obtain ⟨h1, h2, h3⟩ := ih hbuf (fun c k r hm => hc c k r (by simp [hm]))
    refine ⟨h1, h2, ?_⟩
    intro c k r st text c' bytes k' hx h0
    simp [List.suffix_cons_iff, perror, connectedLine] at hx
    exact h3 c k r st text c' bytes k' hx h0
  | fault buf a r0 env ha hr =>
    intro hbuf hc
    rw [acceptLoop_fault _ _ _ _ _ ha hr] at hc
    have := (hc a.ret 511 r0 (by simp)).1
    simp [BUF_SIZE] at hr
    omega
  | writePending buf a r0 ha hr hb =>
    intro hbuf hc
    rw [acceptLoop_write_pending _ _ _ _ ha hr hb] at hc ⊢
    have hc0 := hc a.ret 511 r0 (by simp)
    have hsp := terminated_spec buf r0 hbuf (hc0.2 hr) (by simpa using hc0.1)
    refine ⟨by simp, hsp.1, ?_⟩
    intro c k r st text c' bytes k' hx h0
    simp [List.suffix_cons_iff, connectedLine, receivedLine, writeCall] at hx
    obtain ⟨⟨_, rfl⟩, _⟩ := hx
    exact hsp.2
  | served buf a r0 w env ha hr hb ih =>
    intro hbuf hc
    rw [acceptLoop_served _ _ _ _ _ _ ha hr hb] at hc ⊢
    have hc0 := hc a.ret 511 r0 (by simp)
    have hsp := terminated_spec buf r0 hbuf (hc0.2 hr) (by simpa using hc0.1)
    obtain ⟨h1, h2, h3⟩ := ih hsp.1 (fun c k r hm => hc c k r (by simp [hm]))
    refine ⟨h1, h2, ?_⟩
    intro c k r st text c' bytes k' hx h0
    rcases writeLog_cases w with hw | hw <;> rw [hw] at hx <;>
      simp [List.suffix_cons_iff, connectedLine, receivedLine, writeCall, perror] at hx <;>
      exact h3 c k r st text c' bytes k' hx h0

/-- Every call of `read` in a trace of the loop asks for 511 bytes. -/
theorem acceptLoop_read_count (s : Int) (buf : List Byte) (env : List Resp) :
    ∀ c k r, Event.sys (.read c k) r ∈ (acceptLoop s buf env).trace → k = 511 := by
  induction buf, env using acceptLoop_induction with
  | nil buf => simp [acceptLoop_nil]
  | acceptFail buf a env ha ih =>
    simpa [acceptLoop_accept_fail _ _ _ _ ha] using ih
  | readPending buf a ha =>
    intro c k r' h
    simp [acceptLoop_read_pending _ _ _ ha] at h
    tauto
  | readFail buf a r env ha hr ih =>
    intro c k r' h
    have := ih c k r'
    simp [acceptLoop_read_fail _ _ _ _ _ ha hr] at h
    tauto
  | fault buf a r env ha hr =>
    intro c k r' h
    simp [acceptLoop_fault _ _ _ _ _ ha hr] at h
    tauto
  | writePending buf a r ha hr hb =>
    intro c k r' h
    simp [acceptLoop_write_pending _ _ _ _ ha hr hb, writeCall] at h
    tauto
  | served buf a r w env ha hr hb ih =>
    intro c k r' h
    have := ih c k r'
    rcases writeLog_cases w with hw | hw <;>
      simp [acceptLoop_served _ _ _ _ _ _ ha hr hb, hw, writeCall] at h <;> tauto

/-- Claim C10: every `read` the program issues asks for `BUF_SIZE - 1 = 511` bytes
of the 512-byte buffer; so, when `read` honours its contract (it returns at
most the count asked for and delivers as many bytes as it returns), the store
of the terminator at index `n` is inside the array for every result
`0 ≤ n ≤ 511`, no run reaches the out-of-bounds store, the buffer keeps its 512
bytes, and right after the store `buf[0..n)` holds the `n` bytes read and
`buf[n]` is zero. -/
theorem read_terminator_in_bounds (buf0 : List Byte) (env : List Resp)
    (hbuf : buf0.length = BUF_SIZE)
    (hcontract : ∀ c k r, Event.sys (.read c k) (some r) ∈ (main buf0 env).trace →
      r.ret ≤ k ∧ (0 ≤ r.ret → (r.data.length : Int) = r.ret)) :
    (∀ c k r, Event.sys (.read c k) r ∈ (main buf0 env).trace →
      k = BUF_SIZE - 1 ∧ k = 511 ∧ k < BUF_SIZE) ∧
    (∀ buf n, 0 ≤ n → n ≤ 511 → ∃ buf', bufStore buf n 0 = some buf' ∧ n.toNat < BUF_SIZE) ∧
    (main buf0 env).status ≠ .fault ∧
    (main buf0 env).buf.length = BUF_SIZE ∧
    ∀ c k r st text c' bytes k',
      [Event.sys (.read c k) (some r), .out st text, .sys (.write c' bytes k') none]
        <:+ (main buf0 env).trace → 0 ≤ r.ret →
      r.ret.toNat < BUF_SIZE ∧
      (main buf0 env).buf.take r.ret.toNat = r.data ∧
      (main buf0 env).buf[r.ret.toNat]? = some 0 := by
  have hstore : ∀ (buf : List Byte) (n : Int), 0 ≤ n → n ≤ 511 →
      ∃ buf', bufStore buf n 0 = some buf' ∧ n.toNat < BUF_SIZE := by
    intro buf n h0 h1
    have : n < (BUF_SIZE : Int) := by simp [BUF_SIZE]; omega
    refine ⟨buf.set n.toNat 0, by simp [bufStore, h0, this], ?_⟩
    simp only [BUF_SIZE]
    omega
  rcases main_cases buf0 env with ⟨r1, r2, r3, r4, rest, rfl, h1, h2, h3, h4, hm⟩ | ⟨hs, hst, hb⟩
  · rw [hm] at hcontract ⊢
    obtain ⟨k1, k2, k3⟩ := acceptLoop_buf r1.ret buf0 rest hbuf
      (fun c k r hmem => hcontract c k r (by simp [hmem]))
    refine ⟨?_, hstore, by simpa using k1, by simpa using k2, ?_⟩
    · intro c k r hmem
      simp [startup] at hmem
      have := acceptLoop_read_count _ _ _ _ _ _ hmem
      subst this
      simp [BUF_SIZE]
    · intro c k r st text c' bytes k' hx h0
      have hmem : Event.sys (.read c k) (some r) ∈
          (Run.prepend (startup r1 r2 r3 r4) (acceptLoop r1.ret buf0 rest)).trace :=
        hx.subset (List.mem_cons_self _ _)
      have hk := (hcontract c k r hmem).1
      simp [startup] at hmem
      have := acceptLoop_read_count _ _ _ _ _ _ hmem
      subst this
      simp [startup, List.suffix_cons_iff] at hx
      refine ⟨?_, by simpa using k3 c 511 r st text c' bytes k' hx h0⟩
      simp only [BUF_SIZE]
      omega
  · have hno : ∀ c k r, Event.sys (.read c k) r ∉ (main buf0 env).trace := by
      intro c k r hmem
      have := hs _ hmem
      simp [Event.isStartup] at this
    refine ⟨fun c k r hmem => absurd hmem (hno c k r), hstore, ?_, by rw [hb, hbuf], ?_⟩
    · rcases hst with h | ⟨h, _⟩ <;> simp [h]
    · intro c k r st text c' bytes k' hx
      exact absurd (hx.subset (List.mem_cons_self _ _)) (hno c k _)

theorem read_terminator_in_bounds_witness :
    zeros.length = BUF_SIZE ∧
    [Event.sys (.read 4 511) (some pingRead), .out .stdout (strBytes "Received: ping\n"),
      .sys (.write 4 (strBytes "httpd v1.0\n") 11) none] <:+ (main zeros pingPending).trace ∧
    (main zeros pingPending).status ≠ .fault ∧
    (main zeros pingPending).buf.take 4 = strBytes "ping" ∧
    (main zeros pingPending).buf[4]? = some 0 :=
  have hz : zeros.length = BUF_SIZE := List.length_replicate _ _
  have ht : (main zeros pingPending).trace
      = startup (ret 3) (ret 0) (ret 0) (ret 0) ++ (.sys (.accept 3) (some pingAccept)
        :: (pingPost.take 3 ++ [.sys (.write 4 (strBytes "httpd v1.0\n") 11) none])) := by
    decide
  have h := read_terminator_in_bounds zeros pingPending hz (by
    intro c k r hmem
    rw [ht] at hmem
    simp [startup, pingPost] at hmem
    obtain ⟨⟨_, rfl⟩, rfl⟩ := hmem
    decide)
  have h' := h.2.2.2.2 4 511 pingRead .stdout (strBytes "Received: ping\n") 4
    (strBytes "httpd v1.0\n") 11 (by decide) (by decide)
  ⟨hz, by decide, h.2.2.1, h'.2.1, h'.2.2⟩

end TcpServer
